import Mathlib

/-!
# Verification of the amazon-demo-proxy purchase core

A shallow embedding, in Lean 4, of the core of `server.js` (and
`src/payments/exact.js`) from the amazon-demo-proxy repository:

* JavaScript/JSON values (`Json`), with JSON numbers modelled as exact
  decimals (JavaScript serialises a float with its shortest decimal
  representation and `JSON.parse` of that representation restores the same
  float, so the decimal-literal level is a faithful abstraction);
* `JSON.stringify` / `JSON.parse` (`jsonStringify` / `jsonParse`);
* UTF-8 encoding and Node's lossy UTF-8 decoding (`Buffer#toString('utf8')`
  never fails: malformed sequences become U+FFFD);
* base64 / base64url (`base64urlEncode` / `base64urlDecode`), with Node's
  lenient base64 decoder (invalid characters are skipped, decoding stops at
  the first `=`);
* Node's `Buffer.from(str, 'hex')` (`hexPairs`) and
  `crypto.timingSafeEqual` (which throws when the buffers differ in length);
* the offer codec and authenticator (`signProduct`, `verifyProductSignature`,
  `decodeProduct`), the catalog validator (`validateAsin`), the idempotency
  ledger (`checkIdempotency`, `storeIdempotencyResult`, the reaper sweep),
  the startup environment validation (`validateEnvironment`,
  `getExactPaymentConfig`) and the full `/purchase` handler
  (`handlePurchase`).

The HMAC-SHA256 digest computed by Node's `crypto` module is treated as a
parameter `hmacHex : String → String → String` of the relevant definitions;
the only fact about it the development uses is visible in each statement
(e.g. that a SHA-256 hex digest is a 64-character hex string).

Sources of nondeterminism of a request (the values of `Date.now()`, the
generated request/payment ids, the ISO timestamp) are collected in a
request context `Ctx` passed to the handler.
-/

/-! ## JSON numbers as exact decimals

A JavaScript number, as it appears in a JSON document, is modelled by its
decimal literal: a sign, an integer part and a list of fraction digits.
`JSON.parse` maps a literal with an exponent or trailing fraction zeros to
the same float as the corresponding plain literal, which the parser below
mirrors by normalising; `JSON.stringify` prints the plain literal back.
-/

structure JNum where
  neg : Bool
  ip : Nat
  fp : List Nat
deriving DecidableEq, Repr

/-- The rational value denoted by a decimal literal. -/
def JNum.fracVal : List Nat → ℚ
  | [] => 0
  | d :: ds => ((d : ℚ) + JNum.fracVal ds) / 10

/-- The rational value of a `JNum`. -/
def JNum.toRat (n : JNum) : ℚ :=
  (if n.neg then -1 else 1) * ((n.ip : ℚ) + JNum.fracVal n.fp)

/-- Well-formed decimal literals: exactly those that `JSON.stringify`
produces for a double. Digits are decimal, there is no trailing fraction
zero, `-0` is written `0`, and the value is in the range where JavaScript
prints positional (not exponent) notation. -/
def JNum.wf (n : JNum) : Prop :=
  (∀ d ∈ n.fp, d < 10) ∧ n.fp.getLast? ≠ some 0 ∧
    (n.neg → (n.ip ≠ 0 ∨ n.fp ≠ [])) ∧ n.ip < 10 ^ 21 ∧
    (n.ip = 0 → n.fp.take 6 ≠ List.replicate 6 0 ∨ n.fp = [])

instance (n : JNum) : Decidable n.wf := by
  unfold JNum.wf; infer_instance

/-! ## JavaScript/JSON values -/

inductive Json where
  | null : Json
  | bool (b : Bool) : Json
  | num (n : JNum) : Json
  | str (s : String) : Json
  | arr (xs : List Json) : Json
  | obj (kvs : List (String × Json)) : Json
deriving Repr

mutual

/-- Boolean structural equality on `Json` (the deriving handler does not
support this nested inductive). -/
def jbeq : Json → Json → Bool
  | .null, .null => true
  | .bool a, .bool b => a == b
  | .num a, .num b => a == b
  | .str a, .str b => a == b
  | .arr a, .arr b => jbeqArr a b
  | .obj a, .obj b => jbeqObj a b
  | _, _ => false

def jbeqArr : List Json → List Json → Bool
  | [], [] => true
  | x :: xs, y :: ys => jbeq x y && jbeqArr xs ys
  | _, _ => false

def jbeqObj : List (String × Json) → List (String × Json) → Bool
  | [], [] => true
  | (k, v) :: xs, (k', v') :: ys => k == k' && jbeq v v' && jbeqObj xs ys
  | _, _ => false

end

mutual

theorem jbeq_iff : ∀ a b, jbeq a b = true ↔ a = b
  | .null, b => by cases b <;> simp [jbeq]
  | .bool x, b => by cases b <;> simp [jbeq]
  | .num x, b => by cases b <;> simp [jbeq]
  | .str x, b => by cases b <;> simp [jbeq]
  | .arr xs, b => by
      cases b <;> simp [jbeq]
      exact jbeqArr_iff xs _
  | .obj xs, b => by
      cases b <;> simp [jbeq]
      exact jbeqObj_iff xs _

theorem jbeqArr_iff : ∀ a b, jbeqArr a b = true ↔ a = b
  | [], b => by cases b <;> simp [jbeqArr]
  | x :: xs, b => by
      cases b with
      | nil => simp [jbeqArr]
      | cons y ys => simp [jbeqArr, jbeq_iff x y, jbeqArr_iff xs ys]

theorem jbeqObj_iff : ∀ a b, jbeqObj a b = true ↔ a = b
  | [], b => by cases b <;> simp [jbeqObj]
  | (k, v) :: xs, b => by
      cases b with
      | nil => simp [jbeqObj]
      | cons y ys =>
          obtain ⟨k', v'⟩ := y
          simp [jbeqObj, jbeq_iff v v', jbeqObj_iff xs ys, and_assoc]

end

instance : DecidableEq Json := fun a b =>
  decidable_of_iff (jbeq a b = true) (jbeq_iff a b)

/-- The result of a JavaScript property access or of reading an absent
request field: either `undefined` or a proper value. -/
inductive JsProp where
  | undef : JsProp
  | val (j : Json) : JsProp
deriving DecidableEq, Repr

/-- JavaScript truthiness of a value: `false`, `0`, `-0`, `""`, `null`
(and `undefined`, see `truthyP`) are falsy; every other value — in
particular every object and array — is truthy. -/
def jsTruthy : Json → Bool
  | .null => false
  | .bool b => b
  | .num n => !(n.ip == 0 && n.fp.isEmpty)
  | .str s => !(s == "")
  | .arr _ => true
  | .obj _ => true

/-- Truthiness of a possibly-`undefined` value. -/
def truthyP : JsProp → Bool
  | .undef => false
  | .val j => jsTruthy j

/-- Property lookup on the key/value list of an object (first match). -/
def objLookup : List (String × Json) → String → Option Json
  | [], _ => none
  | (k, v) :: kvs, key => if k = key then some v else objLookup kvs key

/-- JavaScript property access `j[k]`: throws a `TypeError` on `null`,
returns the field or `undefined` on an object, and `undefined` on any other
value (numbers, strings, booleans and arrays have none of the properties
this server reads). -/
def getProp (j : Json) (k : String) : Except String JsProp :=
  match j with
  | .null => .error ("Cannot read properties of null (reading " ++ k ++ ")")
  | .obj kvs =>
      match objLookup kvs k with
      | some v => .ok (.val v)
      | none => .ok .undef
  | _ => (.ok .undef : Except String JsProp)

/-- Property access on a possibly-`undefined` base (`undefined[k]` throws). -/
def getPropP (p : JsProp) (k : String) : Except String JsProp :=
  match p with
  | .undef => .error ("Cannot read properties of undefined (reading " ++ k ++ ")")
  | .val j => getProp j k

/-! ## Decimal printing and reading of natural numbers -/

/-- The character for a decimal digit. -/
def digitChar (d : Nat) : Char := Char.ofNat (48 + d)

/-- Decimal digit test. -/
def isDigitChar (c : Char) : Bool := 48 ≤ c.toNat && c.toNat ≤ 57

/-- Decimal printing of a natural number, with explicit fuel so that the
definition is structurally recursive (and hence kernel-reducible). -/
def natPrintAux : Nat → Nat → List Char
  | 0, _ => []
  | fuel + 1, n => if n < 10 then [digitChar n] else natPrintAux fuel (n / 10) ++ [digitChar (n % 10)]

/-- Decimal printing of a natural number (no leading zeros; `0 ↦ "0"`). -/
def natPrint (n : Nat) : List Char := natPrintAux (n + 1) n

/-- Read a maximal run of decimal digits, most significant first, onto an
accumulator; returns the value and the unread remainder. -/
def readDigits : Nat → List Char → Nat × List Char
  | acc, [] => (acc, [])
  | acc, c :: cs =>
      if isDigitChar c then readDigits (10 * acc + (c.toNat - 48)) cs else (acc, c :: cs)

/-- Read a maximal run of decimal digits as a digit list. -/
def readDigitList : List Char → List Nat × List Char
  | [] => ([], [])
  | c :: cs =>
      if isDigitChar c then
        let (ds, r) := readDigitList cs
        ((c.toNat - 48) :: ds, r)
      else ([], c :: cs)

/-! ## JSON string escaping (`JSON.stringify` quoting) -/

/-- Lowercase hex digit character. -/
def hexDigitChar (d : Nat) : Char := if d < 10 then Char.ofNat (48 + d) else Char.ofNat (87 + d)

/-- Hex digit value (both cases), as used by Node's hex decoding. -/
def hexVal (c : Char) : Option Nat :=
  if 48 ≤ c.toNat ∧ c.toNat ≤ 57 then some (c.toNat - 48)
  else if 97 ≤ c.toNat ∧ c.toNat ≤ 102 then some (c.toNat - 87)
  else if 65 ≤ c.toNat ∧ c.toNat ≤ 70 then some (c.toNat - 55)
  else none

/-- How `JSON.stringify` writes one character of a string: `"` and `\`
are escaped, control characters use the short escapes `\b \t \n \f \r`
or `\u00XX`, everything else (including non-ASCII) is written as is. -/
def escapeChar (c : Char) : List Char :=
  if c = '"' then ['\\', '"']
  else if c = '\\' then ['\\', '\\']
  else if c.toNat < 32 then
    if c.toNat = 8 then ['\\', 'b']
    else if c.toNat = 9 then ['\\', 't']
    else if c.toNat = 10 then ['\\', 'n']
    else if c.toNat = 12 then ['\\', 'f']
    else if c.toNat = 13 then ['\\', 'r']
    else ['\\', 'u', '0', '0', hexDigitChar (c.toNat / 16), hexDigitChar (c.toNat % 16)]
  else [c]

def escapeList : List Char → List Char
  | [] => []
  | c :: cs => escapeChar c ++ escapeList cs

/-! ## The serializer (`JSON.stringify`) -/

/-- Printing of a `JNum` as `JSON.stringify` prints the float it denotes. -/
def printNum (n : JNum) : List Char :=
  (if n.neg then ['-'] else []) ++ natPrint n.ip ++
    (if n.fp.isEmpty then [] else '.' :: n.fp.map digitChar)

mutual

/-- `JSON.stringify` (no spacing, keys in insertion order). -/
def serializeJ : Json → List Char
  | .null => ['n', 'u', 'l', 'l']
  | .bool true => 't' :: ['r', 'u', 'e']
  | .bool false => 'f' :: ['a', 'l', 's', 'e']
  | .num n => printNum n
  | .str s => '"' :: escapeList s.data ++ ['"']
  | .arr xs => '[' :: serializeItems xs ++ [']']
  | .obj kvs => '{' :: serializeMembers kvs ++ ['}']

def serializeItems : List Json → List Char
  | [] => []
  | [x] => serializeJ x
  | x :: xs => serializeJ x ++ ',' :: serializeItems xs

def serializeMembers : List (String × Json) → List Char
  | [] => []
  | [(k, v)] => '"' :: escapeList k.data ++ '"' :: ':' :: serializeJ v
  | (k, v) :: kvs => '"' :: escapeList k.data ++ '"' :: ':' :: serializeJ v ++ ',' :: serializeMembers kvs

end

/-- `JSON.stringify` at the string level. -/
def jsonStringify (j : Json) : String := String.mk (serializeJ j)

mutual

/-- Fuel bound for the parser: an upper bound on the nesting steps the
parser takes on the serialized form of a value. -/
def jsize : Json → Nat
  | .null => 1
  | .bool _ => 1
  | .num _ => 1
  | .str _ => 1
  | .arr xs => 1 + jsizeItems xs
  | .obj kvs => 1 + jsizeMembers kvs

def jsizeItems : List Json → Nat
  | [] => 0
  | x :: xs => 1 + jsize x + jsizeItems xs

def jsizeMembers : List (String × Json) → Nat
  | [] => 0
  | (_, v) :: kvs => 1 + jsize v + jsizeMembers kvs

end

/-- Object keys pairwise distinct (no duplicate keys). -/
def keysNodup : List (String × Json) → Bool
  | [] => true
  | (k, _) :: kvs => !(kvs.any (fun kv => kv.1 == k)) && keysNodup kvs

mutual

/-- Well-formedness of a `Json` value for the round-trip theorem: every
number is a canonical decimal literal and no object has duplicate keys.
(String contents are unrestricted: escaping is total.) -/
def jwf : Json → Bool
  | .null => true
  | .bool _ => true
  | .num n => decide n.wf
  | .str _ => true
  | .arr xs => jwfItems xs
  | .obj kvs => keysNodup kvs && jwfMembers kvs

def jwfItems : List Json → Bool
  | [] => true
  | x :: xs => jwf x && jwfItems xs

def jwfMembers : List (String × Json) → Bool
  | [] => true
  | (_, v) :: kvs => jwf v && jwfMembers kvs

end

/-! ## The parser (`JSON.parse`) -/

/-- JSON whitespace. -/
def isJsonWs (c : Char) : Bool := c = ' ' || c = '\t' || c = '\n' || c = '\r'

def skipWs (s : List Char) : List Char := s.dropWhile isJsonWs

mutual

/-- Body of a JSON string after the opening quote: unescapes and stops at
the closing quote. Raw control characters in a string are a parse
error. -/
def parseStringBody : List Char → Option (List Char × List Char)
  | [] => none
  | c :: rest =>
      if c = '"' then some ([], rest)
      else if c = '\\' then parseEscape rest
      else if c.toNat < 32 then none
      else (parseStringBody rest).map fun (cs, r') => (c :: cs, r')

/-- One escape sequence after a backslash. -/
def parseEscape : List Char → Option (List Char × List Char)
  | [] => none
  | e :: r =>
      if e = '"' then (parseStringBody r).map fun (cs, r') => ('"' :: cs, r')
      else if e = '\\' then (parseStringBody r).map fun (cs, r') => ('\\' :: cs, r')
      else if e = '/' then (parseStringBody r).map fun (cs, r') => ('/' :: cs, r')
      else if e = 'b' then (parseStringBody r).map fun (cs, r') => (Char.ofNat 8 :: cs, r')
      else if e = 'f' then (parseStringBody r).map fun (cs, r') => (Char.ofNat 12 :: cs, r')
      else if e = 'n' then (parseStringBody r).map fun (cs, r') => ('\n' :: cs, r')
      else if e = 'r' then (parseStringBody r).map fun (cs, r') => (Char.ofNat 13 :: cs, r')
      else if e = 't' then (parseStringBody r).map fun (cs, r') => ('\t' :: cs, r')
      else if e = 'u' then parseUnicodeEscape r
      else none

/-- A `\uXXXX` escape (which must have four hex digits). A code that is a
surrogate half is modelled as U+FFFD: a sequence of Unicode scalar values
cannot carry it (JavaScript UTF-16 strings combine a valid pair into one
code point and keep a lone half verbatim; the serializer never emits
either form). -/
def parseUnicodeEscape : List Char → Option (List Char × List Char)
  | h1 :: h2 :: h3 :: h4 :: r2 =>
      match hexVal h1, hexVal h2, hexVal h3, hexVal h4 with
      | some a, some b, some c2, some d =>
          let m := ((a * 16 + b) * 16 + c2) * 16 + d
          (parseStringBody r2).map fun (cs, r') =>
            ((if m < 55296 ∨ 57344 ≤ m then Char.ofNat m
              else Char.ofNat 65533) :: cs, r')
      | _, _, _, _ => none
  | _ => none

end

/-- Fraction digits with trailing zeros removed (`JSON.parse` maps
`1.10` and `1.1` to the same float). -/
def stripTrailingZeros (fp : List Nat) : List Nat :=
  (fp.reverse.dropWhile (fun d => d == 0)).reverse

/-- Canonical `JNum` from parsed sign/integer/fraction parts (also maps
`-0` to `0`, as float equality does). -/
def normalizeNum (neg : Bool) (ip : Nat) (fp : List Nat) : JNum :=
  let fp' := stripTrailingZeros fp
  ⟨if ip = 0 ∧ fp' = [] then false else neg, ip, fp'⟩

def natOfDigits (ds : List Nat) : Nat := ds.foldl (fun a d => 10 * a + d) 0

/-- Decimal digits of a natural number. -/
def natDigits (n : Nat) : List Nat := (natPrint n).map (fun c => c.toNat - 48)

/-- Apply a decimal exponent to parsed parts (only reachable for inputs
that carry an explicit exponent, which the serializer never emits). -/
def applyExp (neg : Bool) (ip : Nat) (fp : List Nat) (e : Int) : JNum :=
  let ds := natDigits ip ++ fp
  let p : Int := (natDigits ip).length + e
  if p ≤ 0 then normalizeNum neg 0 (List.replicate (-p).toNat 0 ++ ds)
  else if (ds.length : Int) ≤ p then
    normalizeNum neg (natOfDigits (ds ++ List.replicate (p - ds.length).toNat 0)) []
  else normalizeNum neg (natOfDigits (ds.take p.toNat)) (ds.drop p.toNat)

/-- Integer part of a JSON number: `0`, or a nonzero digit followed by
digits (leading zeros are not part of the number). -/
def parseIntPart : List Char → Option (Nat × List Char)
  | [] => none
  | c :: r =>
      if c = '0' then some (0, r)
      else if isDigitChar c then some (readDigits 0 (c :: r)) else none

def parseExpTail (neg : Bool) (ip : Nat) (fp : List Nat) (r : List Char) :
    Option (JNum × List Char) :=
  let es : Int × List Char :=
    match r with
    | [] => (1, [])
    | c :: t => if c = '+' then (1, t) else if c = '-' then (-1, t) else (1, c :: t)
  match readDigitList es.2 with
  | ([], _) => none
  | (ds, r2) => some (applyExp neg ip fp (es.1 * (natOfDigits ds : Int)), r2)

/-- Optional exponent after the integer/fraction parts. -/
def parseExpPart (neg : Bool) (ip : Nat) (fp : List Nat) (s : List Char) :
    Option (JNum × List Char) :=
  match s with
  | [] => some (normalizeNum neg ip fp, [])
  | c :: r =>
      if c = 'e' ∨ c = 'E' then parseExpTail neg ip fp r
      else some (normalizeNum neg ip fp, c :: r)

/-- The digits of a fraction (at least one required). -/
def parseFracDigits (neg : Bool) (ip : Nat) (r : List Char) : Option (JNum × List Char) :=
  match readDigitList r with
  | ([], _) => none
  | (ds, r2) => parseExpPart neg ip ds r2

/-- Optional fraction after the integer part. -/
def parseFracPart (neg : Bool) (ip : Nat) (s2 : List Char) : Option (JNum × List Char) :=
  match s2 with
  | [] => parseExpPart neg ip [] []
  | c :: r =>
      if c = '.' then parseFracDigits neg ip r
      else parseExpPart neg ip [] (c :: r)

/-- A JSON number literal. -/
def parseNumber (s : List Char) : Option (JNum × List Char) :=
  match s with
  | [] => none
  | c :: r =>
      if c = '-' then
        match parseIntPart r with
        | none => none
        | some (ip, s2) => parseFracPart true ip s2
      else
        match parseIntPart (c :: r) with
        | none => none
        | some (ip, s2) => parseFracPart false ip s2

/-- Insert a key/value pair as JavaScript object construction does: a
repeated key keeps its first position but takes the new value. -/
def objInsert : List (String × Json) → String → Json → List (String × Json)
  | [], k, v => [(k, v)]
  | (k', v') :: rest, k, v =>
      if k' = k then (k', v) :: rest else (k', v') :: objInsert rest k v

/-- Collapse duplicate keys (last value wins, first position kept). -/
def dedupObj (kvs : List (String × Json)) : List (String × Json) :=
  kvs.foldl (fun acc kv => objInsert acc kv.1 kv.2) []

mutual

/-- `JSON.parse`, fuel-indexed so that the recursion is structural. -/
def parseValue : Nat → List Char → Option (Json × List Char)
  | 0, _ => none
  | fuel + 1, s =>
      match skipWs s with
      | [] => none
      | c :: r =>
          if c = '"' then
            (parseStringBody r).map fun (cs, r') => (.str (String.mk cs), r')
          else if c = '[' then
            match skipWs r with
            | ']' :: r' => some (.arr [], r')
            | _ => (parseItems fuel r).map fun (xs, r') => (.arr xs, r')
          else if c = '{' then
            match skipWs r with
            | '}' :: r' => some (.obj [], r')
            | _ => (parseMembers fuel r).map fun (kvs, r') => (.obj (dedupObj kvs), r')
          else if c = 'n' then
            match r with
            | 'u' :: 'l' :: 'l' :: r' => some (.null, r')
            | _ => none
          else if c = 't' then
            match r with
            | 'r' :: 'u' :: 'e' :: r' => some (.bool true, r')
            | _ => none
          else if c = 'f' then
            match r with
            | 'a' :: 'l' :: 's' :: 'e' :: r' => some (.bool false, r')
            | _ => none
          else
            (parseNumber (c :: r)).map fun (n, r') => (.num n, r')

def parseItems : Nat → List Char → Option (List Json × List Char)
  | 0, _ => none
  | fuel + 1, s =>
      match parseValue fuel s with
      | none => none
      | some (x, r) =>
          match skipWs r with
          | ',' :: r' =>
              match parseItems fuel r' with
              | none => none
              | some (xs, r'') => some (x :: xs, r'')
          | ']' :: r' => some ([x], r')
          | _ => none

def parseMembers : Nat → List Char → Option (List (String × Json) × List Char)
  | 0, _ => none
  | fuel + 1, s =>
      match skipWs s with
      | '"' :: r =>
          match parseStringBody r with
          | none => none
          | some (k, r1) =>
              match skipWs r1 with
              | ':' :: r2 =>
                  match parseValue fuel r2 with
                  | none => none
                  | some (v, r3) =>
                      match skipWs r3 with
                      | ',' :: r4 =>
                          match parseMembers fuel r4 with
                          | none => none
                          | some (kvs, r5) => some ((String.mk k, v) :: kvs, r5)
                      | '}' :: r4 => some ([(String.mk k, v)], r4)
                      | _ => none
              | _ => none
      | _ => none

end

/-- `JSON.parse` of a whole document (trailing non-whitespace rejects). -/
def jsonParse (s : String) : Except String Json :=
  match parseValue (s.data.length + 1) s.data with
  | some (j, rest) =>
      if skipWs rest = [] then .ok j
      else .error "Unexpected non-whitespace character after JSON data"
  | none => .error "Unexpected token in JSON"

/-! ## UTF-8 (`Buffer.from(string)` / `Buffer#toString('utf8')`)

Bytes are natural numbers below 256. Node's UTF-8 decoding never fails:
malformed sequences are replaced with U+FFFD (here: one replacement
character per rejected byte or truncated sequence).
-/

def utf8EncodeChar (c : Char) : List Nat :=
  if c.toNat < 128 then [c.toNat]
  else if c.toNat < 2048 then [192 + c.toNat / 64, 128 + c.toNat % 64]
  else if c.toNat < 65536 then
    [224 + c.toNat / 4096, 128 + c.toNat / 64 % 64, 128 + c.toNat % 64]
  else
    [240 + c.toNat / 262144, 128 + c.toNat / 4096 % 64, 128 + c.toNat / 64 % 64,
      128 + c.toNat % 64]

def utf8EncodeList : List Char → List Nat
  | [] => []
  | c :: cs => utf8EncodeChar c ++ utf8EncodeList cs

/-- `Buffer.from(s)`: the UTF-8 bytes of a string. -/
def utf8Encode (s : String) : List Nat := utf8EncodeList s.data

/-- Is `b` a UTF-8 continuation byte? -/
def isCont (b : Nat) : Bool := 128 ≤ b && b < 192

/-- Valid range test for the second byte of a 3- or 4-byte sequence,
which depends on the lead byte (rejects overlong encodings, surrogates
and code points above U+10FFFF). -/
def contRangeOk (lead b : Nat) : Bool :=
  if lead = 224 then 160 ≤ b && b < 192
  else if lead = 237 then 128 ≤ b && b < 160
  else if lead = 240 then 144 ≤ b && b < 192
  else if lead = 244 then 128 ≤ b && b < 144
  else isCont b

/-- One step of Node's lossy UTF-8 decoding: the character produced for
the lead byte `b` (U+FFFD on a malformed or truncated sequence) and the
bytes left to scan. -/
def utf8Step (b : Nat) (bs : List Nat) : Char × List Nat :=
  if b < 128 then (Char.ofNat b, bs)
  else if b < 194 then (Char.ofNat 65533, bs)
  else if b < 224 then
    if 1 ≤ bs.length && isCont (bs.headD 0) then
      (Char.ofNat ((b - 192) * 64 + (bs.headD 0 - 128)), bs.tail)
    else (Char.ofNat 65533, bs)
  else if b < 240 then
    if 2 ≤ bs.length && contRangeOk b (bs.headD 0) && isCont (bs.tail.headD 0) then
      (Char.ofNat ((b - 224) * 4096 + (bs.headD 0 - 128) * 64 + (bs.tail.headD 0 - 128)),
        bs.tail.tail)
    else (Char.ofNat 65533, bs)
  else if b < 245 then
    if 3 ≤ bs.length && contRangeOk b (bs.headD 0) && isCont (bs.tail.headD 0) &&
        isCont (bs.tail.tail.headD 0) then
      (Char.ofNat ((b - 240) * 262144 + (bs.headD 0 - 128) * 4096 +
        (bs.tail.headD 0 - 128) * 64 + (bs.tail.tail.headD 0 - 128)), bs.tail.tail.tail)
    else (Char.ofNat 65533, bs)
  else (Char.ofNat 65533, bs)

/-- Node's lossy UTF-8 decoding, fuel-indexed (one unit of fuel per
produced character; a decode step always consumes at least one byte, so
the byte count is enough fuel). -/
def utf8DecodeLossyAux : Nat → List Nat → List Char
  | 0, _ => []
  | _ + 1, [] => []
  | fuel + 1, b :: bs =>
      (utf8Step b bs).1 :: utf8DecodeLossyAux fuel (utf8Step b bs).2

/-- Node's lossy UTF-8 decoding (`Buffer#toString('utf8')`). On a
malformed sequence it emits U+FFFD and rescans from the byte after the
lead byte. -/
def utf8DecodeLossy (bytes : List Nat) : List Char :=
  utf8DecodeLossyAux bytes.length bytes

/-! ## base64 and base64url

`server.js` produces tokens with `buffer.toString('base64')` followed by
the URL-safe character replacements and padding removal, and reads them
back through padding repair, the reverse replacements and
`Buffer.from(str, 'base64')` — Node's lenient decoder, which skips
characters outside the alphabet and stops at the first `=`.
-/

/-- The base64 character for a 6-bit value. -/
def b64CharOf (v : Nat) : Char :=
  if v < 26 then Char.ofNat (65 + v)
  else if v < 52 then Char.ofNat (97 + (v - 26))
  else if v < 62 then Char.ofNat (48 + (v - 52))
  else if v = 62 then '+'
  else '/'

/-- The 6-bit value of a base64 character (`none` outside the alphabet). -/
def b64ValOf (c : Char) : Option Nat :=
  if 65 ≤ c.toNat ∧ c.toNat ≤ 90 then some (c.toNat - 65)
  else if 97 ≤ c.toNat ∧ c.toNat ≤ 122 then some (c.toNat - 71)
  else if 48 ≤ c.toNat ∧ c.toNat ≤ 57 then some (c.toNat + 4)
  else if c = '+' then some 62
  else if c = '/' then some 63
  else none

/-- Standard base64 with padding (`buffer.toString('base64')`). -/
def b64Encode : List Nat → List Char
  | [] => []
  | [a] => [b64CharOf (a / 4), b64CharOf (a % 4 * 16), '=', '=']
  | [a, b] => [b64CharOf (a / 4), b64CharOf (a % 4 * 16 + b / 16), b64CharOf (b % 16 * 4), '=']
  | a :: b :: c :: rest =>
      b64CharOf (a / 4) :: b64CharOf (a % 4 * 16 + b / 16) ::
        b64CharOf (b % 16 * 4 + c / 64) :: b64CharOf (c % 64) :: b64Encode rest

/-- Reassemble bytes from 6-bit values (lenient: a trailing group of 3,
2 or 1 values yields 2, 1 or 0 bytes). -/
def b64Bytes : List Nat → List Nat
  | v1 :: v2 :: v3 :: v4 :: rest =>
      (v1 * 4 + v2 / 16) :: (v2 % 16 * 16 + v3 / 4) :: (v3 % 4 * 64 + v4) :: b64Bytes rest
  | [v1, v2, v3] => [v1 * 4 + v2 / 16, v2 % 16 * 16 + v3 / 4]
  | [v1, v2] => [v1 * 4 + v2 / 16]
  | _ => []

/-- Node's lenient base64 decoding (`Buffer.from(str, 'base64')`). -/
def b64DecodeLenient (s : List Char) : List Nat :=
  b64Bytes ((s.takeWhile (fun c => c ≠ '=')).filterMap b64ValOf)

/-- `+` and `/` to their URL-safe replacements (the three
`String#replace` calls of `base64urlEncode`; `=` is simply dropped). -/
def plusSlashToUrl (c : Char) : Char :=
  if c = '+' then '-' else if c = '/' then '_' else c

/-- The reverse replacements of `base64urlDecode`. -/
def urlToStd (c : Char) : Char :=
  if c = '-' then '+' else if c = '_' then '/' else c

/-- `base64urlEncode(buffer)` from `server.js`. -/
def base64urlEncode (buf : List Nat) : String :=
  String.mk (((b64Encode buf).map plusSlashToUrl).filter (fun c => c ≠ '='))

/-- `base64urlDecode(str)` from `server.js`: repair padding, map the
URL-safe alphabet back, decode leniently. -/
def base64urlDecode (s : String) : List Nat :=
  b64DecodeLenient
    (((s.data ++ List.replicate ((4 - s.data.length % 4) % 4) '=').map urlToStd))

/-! ## Node hex buffers and `crypto.timingSafeEqual` -/

/-- `Buffer.from(str, 'hex')`: consumes complete pairs of hex digits and
stops at the first invalid pair (an odd trailing digit is dropped). -/
def hexPairs : List Char → List Nat
  | c1 :: c2 :: rest =>
      match hexVal c1, hexVal c2 with
      | some a, some b => (a * 16 + b) :: hexPairs rest
      | _, _ => []
  | _ => []

/-- `crypto.timingSafeEqual(a, b)`: throws when the buffers differ in
length, otherwise compares them (in constant time, which a value-level
model does not observe). -/
def timingSafeEqual (a b : List Nat) : Except String Bool :=
  if a.length ≠ b.length then .error "Input buffers must have the same byte length"
  else .ok (a = b)

/-! ## The offer codec and authenticator (`server.js` lines 117–166)

`hmacHex secret msg` stands for
`crypto.createHmac('sha256', secret).update(msg).digest('hex')`;
a SHA-256 hex digest is a 64-character hex string.
-/

/-- `signProduct(product)`: the `(productBlob, signature)` pair. -/
def signProduct (hmacHex : String → String → String) (secret : String) (product : Json) :
    String × String :=
  let productBlob := base64urlEncode (utf8Encode (jsonStringify product))
  (productBlob, hmacHex secret productBlob)

/-- `verifyProductSignature(productBlob, signature)`. The result is
`Except` because `crypto.timingSafeEqual` throws when
`Buffer.from(signature, 'hex')` does not have the digest's length. -/
def verifyProductSignature (hmacHex : String → String → String) (secret : String)
    (productBlob signature : String) : Except String Bool :=
  let expectedSignature := hmacHex secret productBlob
  timingSafeEqual (hexPairs signature.data) (hexPairs expectedSignature.data)

/-- `decodeProduct(productBlob)`: base64url-decode, UTF-8 decode (lossy,
as Node's `toString('utf8')`), `JSON.parse`; any parse failure is replaced
by the single `'Invalid product blob format'` error. -/
def decodeProduct (productBlob : String) : Except String Json :=
  match jsonParse (String.mk (utf8DecodeLossy (base64urlDecode productBlob))) with
  | .ok product => .ok product
  | .error _ => .error "Invalid product blob format"

/-! ## The catalog validator (`server.js` lines 57–110) -/

/-- One record of `config/product-catalog.json`. -/
structure CatalogEntry where
  asin : String
  name : String
  sku : String
  price : JNum
deriving DecidableEq, Repr

def CatalogEntry.toJson (e : CatalogEntry) : Json :=
  .obj [("asin", .str e.asin), ("name", .str e.name), ("sku", .str e.sku),
        ("price", .num e.price)]

/-- A loaded catalog snapshot (`validateAsin` reloads the catalog when the
global is unset; here the snapshot is simply a parameter). -/
structure Catalog where
  defaultASIN : String
  products : List CatalogEntry
deriving DecidableEq, Repr

/-- The fallback catalog built into `loadProductCatalog`. -/
def fallbackCatalog : Catalog :=
  { defaultASIN := "B08C7KG5LP"
    products :=
      [⟨"B08C7KG5LP", "Apple AirPods (3rd Generation)", "B08C7KG5LP", ⟨false, 169, [9, 9]⟩⟩,
       ⟨"B01MTB55WH", "Apple AirPods (3rd Gen - Alt Listing)", "B01MTB55WH", ⟨false, 169, [9, 9]⟩⟩] }

/-- The result object of `validateAsin` (the `suggestions` field is only
set on the `not_in_catalog` outcome; absent is modelled as `[]`). -/
structure AsinValidation where
  valid : Bool
  asin : JsProp
  product : Option CatalogEntry
  reason : String
  suggestions : List String
deriving DecidableEq, Repr

/-- `validateAsin(asin)`. The argument is the raw value read off the
decoded product (possibly `undefined` or a non-string); the catalog search
uses JavaScript strict equality, so only a string can match. -/
def validateAsin (catalog : Catalog) (asin : JsProp) : AsinValidation :=
  if !truthyP asin then
    { valid := true
      asin := .val (.str catalog.defaultASIN)
      product := catalog.products.find? (fun p => p.asin == catalog.defaultASIN)
      reason := "used_default"
      suggestions := [] }
  else
    match catalog.products.find? (fun p => asin == .val (.str p.asin)) with
    | some product =>
        { valid := true, asin := asin, product := some product,
          reason := "found_in_catalog", suggestions := [] }
    | none =>
        { valid := false, asin := asin, product := none, reason := "not_in_catalog",
          suggestions := (catalog.products.map (fun p => p.asin)).take 3 }

/-! ## The idempotency ledger (`server.js` lines 49–197)

The `idempotencyCache` `Map` is an insertion-ordered association list;
keys are compared with SameValueZero, which coincides with structural
equality on the JSON values a request can carry (for object keys
JavaScript compares identities; no claim involves object keys). Times are
milliseconds (`Date.now()`), as integers.
-/

structure IdemEntry where
  result : Json
  timestamp : Int
deriving DecidableEq, Repr

abbrev IdemCache := List (Json × IdemEntry)

def idemFind : IdemCache → Json → Option IdemEntry
  | [], _ => none
  | (k', e) :: rest, k => if k' = k then some e else idemFind rest k

def idemErase : IdemCache → Json → IdemCache
  | [], _ => []
  | (k', e) :: rest, k => if k' = k then rest else (k', e) :: idemErase rest k

/-- `Map#set`: overwrite in place, else append. -/
def idemSet : IdemCache → Json → IdemEntry → IdemCache
  | [], k, e => [(k, e)]
  | (k', e') :: rest, k, e =>
      if k' = k then (k', e) :: rest else (k', e') :: idemSet rest k e

/-- `checkIdempotency(key)`: a live record yields its stored result; a
stale record is deleted lazily and treated as absent. Returns the result
(if any) and the possibly-pruned cache. -/
def checkIdempotency (now : Int) (key : Json) (cache : IdemCache) :
    Option Json × IdemCache :=
  match idemFind cache key with
  | some entry =>
      if now - entry.timestamp < 3600000 then (some entry.result, cache)
      else (none, idemErase cache key)
  | none => (none, cache)

/-- `storeIdempotencyResult(key, result)`. -/
def storeIdempotencyResult (now : Int) (key : Json) (result : Json)
    (cache : IdemCache) : IdemCache :=
  idemSet cache key ⟨result, now⟩

/-- One run of the reaper (`setInterval` body, every 1800 s): delete every
record aged 3600000 ms or more. -/
def reapIdempotency (now : Int) (cache : IdemCache) : IdemCache :=
  cache.filter (fun kv => !(3600000 ≤ now - kv.2.timestamp))

/-- No two cache records share a key (invariant of a `Map`). -/
def idemKeysNodup : IdemCache → Prop
  | [] => True
  | (k, _) :: rest => idemFind rest k = none ∧ idemKeysNodup rest

/-! ## Startup environment validation

`server.js` lines 9–26 and 39: `validateEnvironment()` runs at startup and
`process.exit(1)`s (modelled as `Except.error`) when `SERP_API_KEY` or
`PRODUCT_SIGNING_SECRET` is missing or empty. `loadProductCatalog()` never
aborts (it falls back to `fallbackCatalog`). The exact-scheme configuration
check lives in `src/payments/exact.js` (`getExactPaymentConfig`), which
`server.js` never imports or calls: it can only throw inside a call of one
of the exported builders, not at startup.
-/

/-- The environment variables the two files consult. -/
structure Env where
  serpApiKey : Option String
  productSigningSecret : Option String
  exactAsset : Option String
  exactChain : Option String
  exactRecipient : Option String
  facilitatorUrl : Option String
deriving DecidableEq, Repr

/-- `!process.env[key]`: absent or empty counts as missing. -/
def envFalsy : Option String → Bool
  | none => true
  | some s => s == ""

def envLookup (env : Env) (key : String) : Option String :=
  if key = "SERP_API_KEY" then env.serpApiKey
  else if key = "PRODUCT_SIGNING_SECRET" then env.productSigningSecret
  else none

/-- `validateEnvironment()`: `process.exit(1)` (here `.error`) when a
required variable is missing. -/
def validateEnvironment (env : Env) : Except String Unit :=
  let missing := ["SERP_API_KEY", "PRODUCT_SIGNING_SECRET"].filter
    (fun key => envFalsy (envLookup env key))
  if missing.length > 0 then
    .error ("Missing required environment variables: " ++ String.intercalate ", " missing)
  else .ok ()

/-- The startup sequence of `server.js` that can refuse to serve:
`validateEnvironment()` (then `loadProductCatalog()`, which always
succeeds, and `app.listen`). -/
def serverStartup (env : Env) : Except String Unit :=
  validateEnvironment env

/-- `process.env.X || 'default'`. -/
def envOrDefault (v : Option String) (d : String) : String :=
  match v with
  | some s => if s = "" then d else s
  | none => d

structure ExactConfig where
  scheme : String
  asset : String
  chain : String
  recipient : String
  facilitatorUrl : String
deriving DecidableEq, Repr

/-- `getExactPaymentConfig()` from `src/payments/exact.js`: asset and
chain fall back to defaults; a missing recipient or facilitator URL
throws. -/
def getExactPaymentConfig (env : Env) : Except String ExactConfig :=
  if envFalsy env.exactRecipient then
    .error "EXACT_RECIPIENT environment variable is required for exact payment scheme"
  else if envFalsy env.facilitatorUrl then
    .error "FACILITATOR_URL environment variable is required for exact payment scheme"
  else
    .ok { scheme := "exact"
          asset := envOrDefault env.exactAsset "USDC"
          chain := envOrDefault env.exactChain "solana"
          recipient := (env.exactRecipient).getD ""
          facilitatorUrl := (env.facilitatorUrl).getD "" }

/-! ## JavaScript coercions used by the handler -/

/-- The value under a property result (`undefined` never reaches the
places this is used). -/
def propVal : JsProp → Json
  | .undef => .null
  | .val j => j

/-- Property access on a value known not to be `null` (used where the
code has already accessed another property of the same base). -/
def getPropD (j : Json) (k : String) : JsProp :=
  match getProp j k with
  | .ok p => p
  | .error _ => (.undef : JsProp)

/-- JavaScript `a || b`. -/
def jsOr (a b : JsProp) : JsProp := if truthyP a then a else b

mutual

/-- JavaScript string coercion `String(v)` (template literals). Array
elements are joined with `,`, `null`/`undefined` elements becoming
empty. -/
def displayJson : Json → String
  | .null => "null"
  | .bool true => "true"
  | .bool false => "false"
  | .num n => String.mk (printNum n)
  | .str s => s
  | .arr xs => displayElems xs
  | .obj _ => "[object Object]"

def displayElems : List Json → String
  | [] => ""
  | [x] => displayItem x
  | x :: xs => displayItem x ++ "," ++ displayElems xs

def displayItem : Json → String
  | .null => ""
  | j => displayJson j

end

def displayP : JsProp → String
  | .undef => "undefined"
  | .val j => displayJson j

/-- JavaScript `ToNumber` for the operand kinds the handler compares or
multiplies. A string operand is modelled as `NaN` (JavaScript would parse
a numeric string, and compare two strings lexicographically); objects and
arrays likewise. The price comparisons of the spec are between numbers,
where this model is exact, and any `NaN` operand makes `>` false in both
JavaScript and this model. -/
def toNumOpt : JsProp → Option JNum
  | .val (.num n) => some n
  | .val (.bool b) => some ⟨false, if b then 1 else 0, []⟩
  | .val .null => some ⟨false, 0, []⟩
  | _ => none

/-- JavaScript `a > b` under `toNumOpt`. -/
def jsGT (a b : JsProp) : Bool :=
  match toNumOpt a, toNumOpt b with
  | some x, some y => decide (y.toRat < x.toRat)
  | _, _ => false

/-- The product of two values, when both convert to numbers. -/
def jsMulOpt (a b : JsProp) : Option ℚ :=
  match toNumOpt a, toNumOpt b with
  | some x, some y => some (x.toRat * y.toRat)
  | _, _ => none

/-- `Number#toFixed(2)` on an exact value: the integer `n` with
`n / 100` closest to the value (ties to the larger `n`), printed with two
decimals; a negative value rounding to `0` keeps its sign. -/
def toFixed2 (q : ℚ) : String :=
  let n : Int := ⌊q * 100 + 1 / 2⌋
  let s := n.natAbs
  String.mk ((if n < 0 ∨ (q < 0 ∧ n = 0) then ['-'] else []) ++
    natPrint (s / 100) ++ '.' :: digitChar (s % 100 / 10) :: [digitChar (s % 100 % 10)])

/-- `(amount * quantity).toFixed(2)` (the `"NaN"` case mirrors
`NaN.toFixed(2)`). -/
def totalPriceStr (a q : JsProp) : String :=
  match jsMulOpt a q with
  | some v => toFixed2 v
  | none => "NaN"

/-- `parseFloat(totalPrice)` as a JSON value (`parseFloat("NaN")` is
`NaN`, which `res.json` serialises as `null`). -/
def totalPriceJson (a q : JsProp) : Json :=
  match jsMulOpt a q with
  | some v =>
      let n : Int := ⌊v * 100 + 1 / 2⌋
      .num (normalizeNum (decide (n < 0)) (n.natAbs / 100)
        [n.natAbs % 100 / 10, n.natAbs % 100 % 10])
  | none => .null

/-! ## The purchase handler (`app.post('/purchase')`, lines 397–673) -/

/-- An object literal whose property values may be `undefined`
(`JSON.stringify`, i.e. `res.json`, drops such properties). -/
def objOfProps (props : List (String × JsProp)) : Json :=
  .obj (props.filterMap fun kv =>
    match kv.2 with
    | .undef => none
    | .val j => some (kv.1, j))

def propsLookup : List (String × JsProp) → String → JsProp
  | [], _ => .undef
  | (k', v) :: rest, k => if k' = k then v else propsLookup rest k

/-- `createErrorResponse(stage, code, message, details)` (lines 383–394):
the details are spread and a `timestamp` (the ISO form of the request
clock) appended. -/
def createErrorResponse (nowIso stage code message : String)
    (details : List (String × JsProp)) : Json :=
  .obj [("ok", .bool false), ("stage", .str stage), ("code", .str code),
        ("message", .str message),
        ("details", objOfProps (details ++ [("timestamp", .val (.str nowIso))]))]

/-- `toAmazonLocator(p)` (lines 162–166). -/
def toAmazonLocator (p : List (String × JsProp)) : Except String String :=
  let a := propsLookup p "asin"
  if truthyP a then .ok ("amazon:" ++ displayP a)
  else
    let u := propsLookup p "url"
    if truthyP u then .ok ("amazon:" ++ displayP u)
    else .error "No ASIN or URL for productLocator"

/-- `typeof data === 'object'` (true for objects, arrays and `null`). -/
def isObjectLike : Json → Bool
  | .obj _ => true
  | .arr _ => true
  | .null => true
  | _ => false

/-- `Object.keys(data)` as a JSON array. -/
def keysJson : Json → Json
  | .obj kvs => .arr (kvs.map fun kv => .str kv.1)
  | .arr xs => .arr ((List.range xs.length).map fun i => .str (String.mk (natPrint i)))
  | _ => .arr []

/-- `validateCrossmintOrderResponse(data)` (lines 236–251): yields the
order identifier (first truthy of `orderId`, `id`, `order_id`) and the raw
response. -/
def validateCrossmintOrderResponse (data : Json) : Except String (Json × Json) :=
  if !jsTruthy data || !isObjectLike data then
    .error "Invalid Crossmint response: not an object"
  else
    let orderId := jsOr (getPropD data "orderId") (jsOr (getPropD data "id") (getPropD data "order_id"))
    if !truthyP orderId then
      .error ("Invalid Crossmint response: missing order identifier. Response structure: "
        ++ jsonStringify (keysJson data))
    else .ok (propVal orderId, data)

/-- The demo shipping fallback (lines 525–535). -/
def demoRecipient : Json :=
  .obj [("name", .str "Demo Customer"), ("email", .str "customer@example.com"),
        ("address", .obj [("line1", .str "123 Test Street"), ("city", .str "San Francisco"),
                          ("state", .str "CA"), ("postalCode", .str "94105"),
                          ("country", .str "US")])]

/-- `product.price.amount` (lines 500 and 516): may throw when `price` is
absent or `null`. -/
def amountOf (product : Json) : Except String JsProp := do
  let priceP ← getProp product "price"
  getPropP priceP "amount"

/-- The Crossmint order request (lines 537–573): the locator object from
the validated identifier plus `offerId` when the decoded product has a
truthy one, the recipient block (address accesses may throw), the fixed
payment block, and the single line item through `toAmazonLocator`. -/
def buildOrderRequest (recipientInfo product : Json) (validatedAsin : JsProp) :
    Except String Json := do
  let locatorProps :=
    if truthyP (getPropD product "offerId") then
      [("asin", validatedAsin), ("offerId", getPropD product "offerId")]
    else [("asin", validatedAsin)]
  let email ← getProp recipientInfo "email"
  let name ← getProp recipientInfo "name"
  let addr ← getProp recipientInfo "address"
  let line1 ← getPropP addr "line1"
  let line2 ← getPropP addr "line2"
  let city ← getPropP addr "city"
  let state ← getPropP addr "state"
  let postalCode ← getPropP addr "postalCode"
  let country ← getPropP addr "country"
  let locator ← toAmazonLocator locatorProps
  pure (objOfProps
    [("recipient", .val (objOfProps
        [("email", email),
         ("physicalAddress", .val (objOfProps
            [("name", name), ("line1", line1),
             ("line2", jsOr line2 (.val (.str ""))),
             ("city", city), ("state", state), ("postalCode", postalCode),
             ("country", jsOr country (.val (.str "US")))]))])),
     ("payment", .val (.obj [("method", .str "solana"), ("currency", .str "usdc")])),
     ("lineItems", .val (.arr [.obj [("productLocator", .str locator)]]))])

/-- The body of a `/purchase` request after destructuring (absent fields
are `undefined`; `quantity` defaults to `1` only when `undefined`). -/
structure PurchaseReq where
  productBlob : JsProp
  signature : JsProp
  quantity : JsProp
  shipping : JsProp
  idempotencyKey : JsProp
  priceExpectation : JsProp
deriving Repr

/-- Per-request nondeterminism: the request clock (`Date.now()`, all reads
within one request sharing the value), its ISO rendering, and the two
generated identifiers. -/
structure Ctx where
  now : Int
  nowIso : String
  requestId : String
  paymentId : String

/-- Process-wide configuration: the signing secret, the HMAC-SHA256 hex
digest of Node's `crypto` module, the catalog snapshot, and the downstream
order-creation collaborator (`callCrossmintAPI('/orders', …)`; `.error`
models a thrown transport error, whose message Node prefixes with
`Crossmint API error:`). -/
structure Cfg where
  secret : String
  hmacHex : String → String → String
  catalog : Catalog
  crossmint : Json → Except String Json

/-- Mutable server state: the idempotency cache and `pendingPayments`. -/
structure St where
  idem : IdemCache
  pending : List (String × Json)
deriving Repr

def pendingSet : List (String × Json) → String → Json → List (String × Json)
  | [], k, v => [(k, v)]
  | (k', v') :: rest, k, v =>
      if k' = k then (k', v) :: rest else (k', v') :: pendingSet rest k v

/-- Outcome of one handler run: HTTP status, JSON body, final state, and
the sequence of downstream order-creation invocations it made. -/
structure HOut where
  status : Nat
  body : Json
  st : St
  calls : List Json
deriving Repr

/-- Outcome of the `try` block: a direct response or a thrown error. -/
inductive TryStep where
  | resp (status : Nat) (body : Json)
  | thrown (msg : String)
deriving Repr

structure TryOut where
  step : TryStep
  st : St
  calls : List Json
deriving Repr

/-- The `pendingPayments` record stored on success (lines 588–602). -/
def pendingEntry (ctx : Ctx) (req : PurchaseReq) (validatedAsin asinP amountP : JsProp)
    (quantityJ : Json) (catalogProduct : CatalogEntry) (orderIdJ raw : Json) : Json :=
  objOfProps
    [("asin", validatedAsin), ("originalAsin", asinP),
     ("quantity", .val quantityJ),
     ("product", .val catalogProduct.toJson),
     ("totalPrice", .val (totalPriceJson amountP (.val quantityJ))),
     ("status", .val (.str "completed")),
     ("createdAt", .val (.str ctx.nowIso)),
     ("completedAt", .val (.str ctx.nowIso)),
     ("crossmintOrder", .val orderIdJ), ("orderId", .val orderIdJ),
     ("trackingInfo", getPropD raw "tracking"),
     ("shipping", .val (if truthyP req.shipping then propVal req.shipping else .null)),
     ("rawCrossmintResponse", .val raw)]

/-- The standardized success response (lines 605–622). -/
def successResponse (ctx : Ctx) (product : Json) (asinP amountP : JsProp)
    (quantityJ : Json) (orderIdJ raw : Json) : Json :=
  objOfProps
    [("ok", .val (.bool true)),
     ("orderId", .val orderIdJ),
     ("status", .val (.str "confirmed")),
     ("message", .val (.str "Purchase completed successfully!")),
     ("order", .val (objOfProps
        [("orderId", .val orderIdJ),
         ("paymentId", .val (.str ctx.paymentId)),
         ("asin", asinP),
         ("product", getPropD product "title"),
         ("quantity", .val quantityJ),
         ("unitPrice", amountP),
         ("totalPrice", .val (totalPriceJson amountP (.val quantityJ))),
         ("estimatedDelivery", .val (.str "3-5 business days")),
         ("tracking", jsOr (getPropD raw "tracking")
            (.val (.str ("TK" ++ String.mk (natPrint ctx.now.toNat)))))])),
     ("raw", .val raw)]

/-- Steps 4–7 of the `try` block, from the total-price computation on:
build the order request, call the collaborator, validate its response,
record the pending payment, store the success in the ledger (key present)
and answer 200. -/
def submitOrder (cfg : Cfg) (ctx : Ctx) (req : PurchaseReq) (st : St)
    (product : Json) (asinP : JsProp) (av : AsinValidation)
    (catalogProduct : CatalogEntry) : TryOut :=
  match amountOf product with
  | .error e => ⟨.thrown e, st, []⟩
  | .ok amountP =>
      let quantityJ : Json :=
        match req.quantity with
        | .undef => .num ⟨false, 1, []⟩
        | .val j => j
      let recipientInfo : Json :=
        if truthyP req.shipping then propVal req.shipping else demoRecipient
      match buildOrderRequest recipientInfo product av.asin with
      | .error e => ⟨.thrown e, st, []⟩
      | .ok orderRequest =>
          match cfg.crossmint orderRequest with
          | .error e => ⟨.thrown e, st, [orderRequest]⟩
          | .ok rawOrderData =>
              match validateCrossmintOrderResponse rawOrderData with
              | .error e => ⟨.thrown e, st, [orderRequest]⟩
              | .ok (orderIdJ, raw) =>
                  let resp := successResponse ctx product asinP amountP quantityJ orderIdJ raw
                  let entry := pendingEntry ctx req av.asin asinP amountP quantityJ
                    catalogProduct orderIdJ raw
                  let st1 : St := { st with pending := pendingSet st.pending ctx.paymentId entry }
                  let st2 : St :=
                    if truthyP req.idempotencyKey then
                      { st1 with idem :=
                          storeIdempotencyResult ctx.now (propVal req.idempotencyKey) resp st1.idem }
                    else st1
                  ⟨.resp 200 resp, st2, [orderRequest]⟩

/-- Steps 2–4 of the `try` block after signature verification: decode,
catalog validation (an absent catalog record for the validated identifier
makes the `catalogProduct.name` log access throw), price gate. -/
def tryMain (cfg : Cfg) (ctx : Ctx) (req : PurchaseReq) (st : St) (blob : String) : TryOut :=
  match decodeProduct blob with
  | .error m =>
      ⟨.resp 400 (createErrorResponse ctx.nowIso "validation" "INVALID_PRODUCT_BLOB"
        ("Failed to decode product data: " ++ m)
        [("requestId", .val (.str ctx.requestId))]), st, []⟩
  | .ok product =>
      match getProp product "asin" with
      | .error e => ⟨.thrown e, st, []⟩
      | .ok asinP =>
          let av := validateAsin cfg.catalog asinP
          if av.valid = false then
            ⟨.resp 400 (createErrorResponse ctx.nowIso "catalog.validate" "ASIN_NOT_IN_CATALOG"
              ("ASIN " ++ displayP asinP ++ " is not in the approved product catalog")
              [("requestId", .val (.str ctx.requestId)),
               ("providedAsin", asinP),
               ("suggestions", .val (.arr (av.suggestions.map Json.str))),
               ("availableAsins", .val (.arr (cfg.catalog.products.map fun p => Json.str p.asin)))]),
             st, []⟩
          else
            match av.product with
            | none => ⟨.thrown "Cannot read properties of undefined (reading name)", st, []⟩
            | some catalogProduct =>
                if truthyP req.priceExpectation then
                  match amountOf product with
                  | .error e => ⟨.thrown e, st, []⟩
                  | .ok amountP =>
                      let peAmount := getPropD (propVal req.priceExpectation) "amount"
                      if jsGT amountP peAmount then
                        ⟨.resp 400 (createErrorResponse ctx.nowIso "sku.validate" "PRICE_EXCEEDED"
                          ("Current price $" ++ displayP amountP ++ " exceeds expected price $"
                            ++ displayP peAmount)
                          [("requestId", .val (.str ctx.requestId)),
                           ("currentPrice", amountP),
                           ("expectedPrice", peAmount)]), st, []⟩
                      else submitOrder cfg ctx req st product asinP av catalogProduct
                else submitOrder cfg ctx req st product asinP av catalogProduct

/-- The whole `try` block (lines 438–631). Non-string `productBlob` or
`signature` make the crypto calls throw a `TypeError` (messages
abbreviated; they only reach the generic `INTERNAL_ERROR`
classification). -/
def tryPurchase (cfg : Cfg) (ctx : Ctx) (req : PurchaseReq) (st : St) : TryOut :=
  match req.productBlob, req.signature with
  | .val (.str blob), .val (.str sig) =>
      match verifyProductSignature cfg.hmacHex cfg.secret blob sig with
      | .error e => ⟨.thrown e, st, []⟩
      | .ok false =>
          ⟨.resp 400 (createErrorResponse ctx.nowIso "auth" "INVALID_SIGNATURE"
            "Product signature verification failed"
            [("requestId", .val (.str ctx.requestId))]), st, []⟩
      | .ok true => tryMain cfg ctx req st blob
  | .val (.str _), _ =>
      ⟨.thrown "The first argument must be of type string or an instance of Buffer", st, []⟩
  | _, _ =>
      ⟨.thrown "The data argument must be of type string or an instance of Buffer", st, []⟩

/-- `String#startsWith` at the character level. -/
def startsWithChars : List Char → List Char → Bool
  | _, [] => true
  | [], _ :: _ => false
  | c :: cs, d :: ds => c == d && startsWithChars cs ds

/-- Substring occurrence, for `String#includes`. -/
def containsChars : List Char → List Char → Bool
  | [], needle => needle.isEmpty
  | c :: cs, needle => startsWithChars (c :: cs) needle || containsChars cs needle

/-- `haystack.includes(needle)`. -/
def strIncludes (hay needle : String) : Bool := containsChars hay.data needle.data

/-- The `catch` classification (lines 638–658). -/
def classifyError (msg : String) : String × String × Nat :=
  if strIncludes msg "Crossmint API error" then ("crossmint.createOrder", "CROSSMINT_API_ERROR", 502)
  else if strIncludes msg "Invalid Crossmint response" then
    ("crossmint.validation", "CROSSMINT_INVALID_RESPONSE", 502)
  else if strIncludes msg "Product signature verification failed" then
    ("auth", "INVALID_SIGNATURE", 400)
  else if strIncludes msg "Invalid product blob" then
    ("validation", "INVALID_PRODUCT_BLOB", 400)
  else ("unknown", "INTERNAL_ERROR", 500)

/-- The `/purchase` handler: required-field validation, the idempotency
short-circuit, the `try` block, and the `catch` that classifies a thrown
error and stores it in the ledger when a key is present. -/
def handlePurchase (cfg : Cfg) (ctx : Ctx) (req : PurchaseReq) (st : St) : HOut :=
  if !truthyP req.productBlob || !truthyP req.signature then
    ⟨400, createErrorResponse ctx.nowIso "validation" "MISSING_REQUIRED_FIELDS"
       "productBlob and signature are required"
       [("requestId", .val (.str ctx.requestId)),
        ("missing", .val (.arr [if !truthyP req.productBlob then .str "productBlob"
                                else .str "signature"]))],
     st, []⟩
  else
    let checked : Option Json × St :=
      if truthyP req.idempotencyKey then
        let c := checkIdempotency ctx.now (propVal req.idempotencyKey) st.idem
        (c.1, { st with idem := c.2 })
      else (none, st)
    match checked with
    | (some cached, st') => ⟨200, cached, st', []⟩
    | (none, st') =>
        match tryPurchase cfg ctx req st' with
        | ⟨.resp status body, st'', calls⟩ => ⟨status, body, st'', calls⟩
        | ⟨.thrown msg, st'', calls⟩ =>
            let sc := classifyError msg
            let errorResponse := createErrorResponse ctx.nowIso sc.1 sc.2.1 msg
              [("requestId", .val (.str ctx.requestId)),
               ("originalError", .val (.str msg))]
            let st3 : St :=
              if truthyP req.idempotencyKey then
                { st'' with idem :=
                    storeIdempotencyResult ctx.now (propVal req.idempotencyKey) errorResponse st''.idem }
              else st''
            ⟨sc.2.2, errorResponse, st3, calls⟩

/-! ## Lemmas: characters and digits -/

theorem char_toNat_ofNat {n : Nat} (h : n.isValidChar) : (Char.ofNat n).toNat = n := by
  simp only [Char.ofNat, h, dif_pos, Char.ofNatAux, Char.toNat]
  show (UInt32.ofNat' n _).toNat = n
  have hn : n < 2 ^ 32 := by
    rcases h with h | ⟨_, h⟩ <;> omega
  simp [UInt32.ofNat', UInt32.toNat, Nat.mod_eq_of_lt hn]

theorem char_eq_of_toNat {a b : Char} (h : a.toNat = b.toNat) : a = b := by
  apply Char.eq_of_val_eq
  exact UInt32.eq_of_val_eq (Fin.eq_of_val_eq h)

theorem char_toNat_ofNat_lt {n : Nat} (h : n < 55296) : (Char.ofNat n).toNat = n :=
  char_toNat_ofNat (Or.inl h)

theorem digitChar_toNat {d : Nat} (h : d < 10) : (digitChar d).toNat = 48 + d := by
  unfold digitChar
  exact char_toNat_ofNat_lt (by omega)

theorem isDigitChar_digitChar {d : Nat} (h : d < 10) : isDigitChar (digitChar d) = true := by
  simp [isDigitChar, digitChar_toNat h]
  omega

theorem digitChar_sub {d : Nat} (h : d < 10) : (digitChar d).toNat - 48 = d := by
  simp [digitChar_toNat h]

theorem char_ne_of_toNat_ne {a b : Char} (h : a.toNat ≠ b.toNat) : a ≠ b :=
  fun hab => h (hab ▸ rfl)

/-! ## Lemmas: decimal printing -/

theorem natPrintAux_fuel : ∀ f1 f2 n, n < f1 → n < f2 → natPrintAux f1 n = natPrintAux f2 n := by
  intro f1
  induction f1 with
  | zero => intro f2 n h; omega
  | succ f1 ih =>
      intro f2 n h1 h2
      match f2, h2 with
      | f2 + 1, _ =>
          by_cases h10 : n < 10
          · simp [natPrintAux, h10]
          · have hd : n / 10 < n := Nat.div_lt_self (by omega) (by omega)
            simp only [natPrintAux, h10, if_false]
            rw [ih f2 (n / 10) (by omega) (by omega)]

theorem natPrint_unfold (n : Nat) :
    natPrint n = if n < 10 then [digitChar n] else natPrint (n / 10) ++ [digitChar (n % 10)] := by
  have e1 : natPrint n =
      if n < 10 then [digitChar n] else natPrintAux n (n / 10) ++ [digitChar (n % 10)] := rfl
  by_cases h : n < 10
  · simp [e1, h]
  · rw [e1, if_neg h, if_neg h,
      natPrintAux_fuel n (n / 10 + 1) (n / 10) (by omega) (by omega)]
    rfl

theorem natPrint_shape (n : Nat) : ∃ d t, d < 10 ∧ natPrint n = digitChar d :: t := by
  induction n using Nat.strong_induction_on with
  | _ n ih =>
      rw [natPrint_unfold]
      by_cases h : n < 10
      · exact ⟨n, [], h, by simp [h]⟩
      · obtain ⟨d, t, hd, ht⟩ := ih (n / 10) (Nat.div_lt_self (by omega) (by omega))
        exact ⟨d, t ++ [digitChar (n % 10)], hd, by simp [h, ht]⟩

theorem natPrint_head_pos (n : Nat) (hn : 0 < n) :
    ∃ d t, 0 < d ∧ d < 10 ∧ natPrint n = digitChar d :: t := by
  induction n using Nat.strong_induction_on with
  | _ n ih =>
      rw [natPrint_unfold]
      by_cases h : n < 10
      · exact ⟨n, [], hn, h, by simp [h]⟩
      · obtain ⟨d, t, hd0, hd, ht⟩ := ih (n / 10) (Nat.div_lt_self (by omega) (by omega))
          (by omega)
        exact ⟨d, t ++ [digitChar (n % 10)], hd0, hd, by simp [h, ht]⟩

theorem readDigits_stop (acc : Nat) (rest : List Char)
    (h : ∀ c t, rest = c :: t → isDigitChar c = false) : readDigits acc rest = (acc, rest) := by
  cases rest with
  | nil => rfl
  | cons c t => simp [readDigits, h c t rfl]

theorem readDigits_natPrint :
    ∀ n acc rest, readDigits acc (natPrint n ++ rest) =
      readDigits (acc * 10 ^ (natPrint n).length + n) rest := by
  intro n
  induction n using Nat.strong_induction_on with
  | _ n ih =>
      intro acc rest
      rw [natPrint_unfold]
      by_cases h : n < 10
      · simp only [h, if_true, List.singleton_append, List.length_cons, List.length_nil]
        simp [readDigits, isDigitChar_digitChar h, digitChar_sub h, pow_one]
        ring_nf
      · have hd : n / 10 < n := Nat.div_lt_self (by omega) (by omega)
        simp only [h, if_false, List.append_assoc, List.singleton_append]
        rw [ih (n / 10) hd]
        have hmod : n % 10 < 10 := Nat.mod_lt _ (by omega)
        simp only [readDigits, isDigitChar_digitChar hmod, if_true, digitChar_sub hmod,
          List.length_append, List.length_cons, List.length_nil]
        congr 1
        rw [pow_succ, ← Nat.mul_assoc]
        generalize acc * 10 ^ (natPrint (n / 10)).length = M
        omega

/-! ## Lemmas: JSON string escaping round-trip -/

theorem hexVal_hexDigitChar {d : Nat} (h : d < 16) : hexVal (hexDigitChar d) = some d := by
  interval_cases d <;> rfl

theorem parseStringBody_escape :
    ∀ (s : List Char) (rest : List Char),
      parseStringBody (escapeList s ++ '"' :: rest) = some (s, rest) := by
  intro s
  induction s with
  | nil => intro rest; simp [escapeList, parseStringBody]
  | cons c s' ih =>
      intro rest
      show parseStringBody (escapeChar c ++ escapeList s' ++ '"' :: rest) = some (c :: s', rest)
      unfold escapeChar
      by_cases hq : c = '"'
      · subst hq
        simp [parseStringBody, parseEscape, ih rest]
      · by_cases hb : c = '\\'
        · subst hb
          simp [parseStringBody, parseEscape, ih rest]
        · by_cases hc : c.toNat < 32
          · have h8 : c.toNat = 8 ∨ c.toNat = 9 ∨ c.toNat = 10 ∨ c.toNat = 12 ∨ c.toNat = 13 ∨
                (c.toNat ≠ 8 ∧ c.toNat ≠ 9 ∧ c.toNat ≠ 10 ∧ c.toNat ≠ 12 ∧ c.toNat ≠ 13) := by
              omega
            simp only [if_neg hq, if_neg hb, if_pos hc]
            rcases h8 with h | h | h | h | h | ⟨h1, h2, h3, h4, h5⟩
            · have hce : c = Char.ofNat 8 := char_eq_of_toNat (by rw [h, char_toNat_ofNat_lt]; omega)
              rw [if_pos h]
              simp [parseStringBody, parseEscape, ih rest, hce]
            · have hce : c = '\t' := char_eq_of_toNat (by rw [h]; rfl)
              rw [if_neg (by omega), if_pos h]
              simp [parseStringBody, parseEscape, ih rest, hce]
            · have hce : c = '\n' := char_eq_of_toNat (by rw [h]; rfl)
              rw [if_neg (by omega), if_neg (by omega), if_pos h]
              simp [parseStringBody, parseEscape, ih rest, hce]
            · have hce : c = Char.ofNat 12 := char_eq_of_toNat (by rw [h, char_toNat_ofNat_lt]; omega)
              rw [if_neg (by omega), if_neg (by omega), if_neg (by omega), if_pos h]
              simp [parseStringBody, parseEscape, ih rest, hce]
            · have hce : c = Char.ofNat 13 := char_eq_of_toNat (by rw [h, char_toNat_ofNat_lt]; omega)
              rw [if_neg (by omega), if_neg (by omega), if_neg (by omega), if_neg (by omega), if_pos h]
              simp [parseStringBody, parseEscape, ih rest, hce]
            · rw [if_neg h1, if_neg h2, if_neg h3, if_neg h4, if_neg h5]
              have hd1 : c.toNat / 16 < 16 := by omega
              have hd2 : c.toNat % 16 < 16 := by omega
              have hm : ((0 * 16 + 0) * 16 + c.toNat / 16) * 16 + c.toNat % 16 = c.toNat := by
                omega
              simp only [List.cons_append, List.nil_append]
              simp [parseStringBody, parseEscape, parseUnicodeEscape,
                hexVal_hexDigitChar hd1, hexVal_hexDigitChar hd2, ih rest, hm,
                show c.toNat / 16 * 16 + c.toNat % 16 = c.toNat from by omega,
                show hexVal '0' = some 0 from rfl,
                show c.toNat < 55296 from by omega, Char.ofNat_toNat]
          · rw [if_neg hq, if_neg hb, if_neg hc]
            simp only [List.cons_append, List.nil_append]
            rw [parseStringBody.eq_2, if_neg hq, if_neg hb, if_neg hc, ih rest]
            rfl

/-! ## Lemmas: JSON number round-trip -/

theorem readDigitList_digits :
    ∀ (fp : List Nat) (rest : List Char), (∀ d ∈ fp, d < 10) →
      (∀ c t, rest = c :: t → isDigitChar c = false) →
      readDigitList (fp.map digitChar ++ rest) = (fp, rest) := by
  intro fp
  induction fp with
  | nil =>
      intro rest _ hstop
      cases rest with
      | nil => rfl
      | cons c t => simp [readDigitList, hstop c t rfl]
  | cons d ds ih =>
      intro rest hd hstop
      have hd10 : d < 10 := hd d (by simp)
      simp only [List.map_cons, List.cons_append, readDigitList,
        isDigitChar_digitChar hd10, if_true, List.append_eq]
      rw [ih rest (fun x hx => hd x (by simp [hx])) hstop]
      simp [digitChar_sub hd10]

theorem stripTrailingZeros_eq_self {fp : List Nat} (h : fp.getLast? ≠ some 0) :
    stripTrailingZeros fp = fp := by
  unfold stripTrailingZeros
  cases hrev : fp.reverse with
  | nil =>
      have : fp = [] := by simpa using congrArg List.reverse hrev
      simp [this]
  | cons a t =>
      have ha : fp.getLast? = some a := by
        rw [List.getLast?_eq_head?_reverse, hrev]
        rfl
      have ha0 : (a == 0) = false := by
        rcases Nat.eq_zero_or_pos a with rfl | hpos
        · exact absurd ha h
        · simp; omega
      rw [List.dropWhile_cons_of_neg (by simp [ha0])]
      rw [← hrev, List.reverse_reverse]

theorem normalizeNum_wf (n : JNum) (hwf : n.wf) : normalizeNum n.neg n.ip n.fp = n := by
  obtain ⟨neg, ip, fp⟩ := n
  obtain ⟨_, hlast, hneg, _, _⟩ := hwf
  simp only [normalizeNum, stripTrailingZeros_eq_self hlast, JNum.mk.injEq, and_true]
  by_cases hz : ip = 0 ∧ fp = []
  · cases neg with
    | false => simp [hz]
    | true =>
        rcases hneg rfl with h | h
        · exact absurd hz.1 h
        · exact absurd hz.2 h
  · simp [hz]

theorem parseIntPart_natPrint (ip : Nat) (tail : List Char)
    (htail : ∀ c t, tail = c :: t → isDigitChar c = false) :
    parseIntPart (natPrint ip ++ tail) = some (ip, tail) := by
  by_cases hip : ip = 0
  · subst hip
    simp only [show natPrint 0 = ['0'] from rfl, List.cons_append, List.nil_append]
    simp [parseIntPart]
  · obtain ⟨d, t, hd0, hd10, hshape⟩ := natPrint_head_pos ip (Nat.pos_of_ne_zero hip)
    have h48 : ('0' : Char).toNat = 48 := rfl
    have hne0 : digitChar d ≠ '0' :=
      char_ne_of_toNat_ne (by rw [digitChar_toNat hd10, h48]; omega)
    rw [hshape, List.cons_append, parseIntPart, if_neg hne0,
      if_pos (isDigitChar_digitChar hd10), ← List.cons_append, ← hshape, readDigits_natPrint]
    rw [Nat.zero_mul, Nat.zero_add, readDigits_stop ip tail htail]

theorem parseExpPart_stop (neg : Bool) (ip : Nat) (fp : List Nat) (rest : List Char)
    (hstop : ∀ c t, rest = c :: t → c ≠ 'e' ∧ c ≠ 'E') :
    parseExpPart neg ip fp rest = some (normalizeNum neg ip fp, rest) := by
  cases rest with
  | nil => rfl
  | cons c t =>
      obtain ⟨h1, h2⟩ := hstop c t rfl
      rw [parseExpPart, if_neg (by tauto)]

theorem parseFracPart_printFrac (neg : Bool) (ip : Nat) (fp : List Nat)
    (hwf : (JNum.mk neg ip fp).wf) (rest : List Char)
    (hstop : ∀ c t, rest = c :: t →
      isDigitChar c = false ∧ c ≠ '.' ∧ c ≠ 'e' ∧ c ≠ 'E') :
    parseFracPart neg ip
      ((if fp.isEmpty then [] else '.' :: fp.map digitChar) ++ rest) =
      some (⟨neg, ip, fp⟩, rest) := by
  have hexp : parseExpPart neg ip fp rest = some (⟨neg, ip, fp⟩, rest) := by
    rw [parseExpPart_stop neg ip fp rest
      (fun c t h => ⟨(hstop c t h).2.2.1, (hstop c t h).2.2.2⟩)]
    rw [normalizeNum_wf ⟨neg, ip, fp⟩ hwf]
  cases fp with
  | nil =>
      simp only [List.isEmpty_nil, if_true, List.nil_append]
      cases rest with
      | nil => simpa [parseFracPart] using hexp
      | cons c t =>
          obtain ⟨_, hdot, _, _⟩ := hstop c t rfl
          simp only [parseFracPart, if_neg hdot]
          exact hexp
  | cons d0 ds =>
      simp only [List.isEmpty_cons, Bool.false_eq_true, if_false, List.cons_append]
      simp only [parseFracPart, if_pos rfl, parseFracDigits,
        readDigitList_digits (d0 :: ds) rest hwf.1 (fun c t h => (hstop c t h).1)]
      exact hexp

theorem parseNumber_printNum (n : JNum) (hwf : n.wf) (rest : List Char)
    (hstop : ∀ c t, rest = c :: t →
      isDigitChar c = false ∧ c ≠ '.' ∧ c ≠ 'e' ∧ c ≠ 'E') :
    parseNumber (printNum n ++ rest) = some (n, rest) := by
  obtain ⟨neg, ip, fp⟩ := n
  have hfps : ∀ c t, ((if fp.isEmpty then [] else '.' :: fp.map digitChar) ++ rest) = c :: t →
      isDigitChar c = false := by
    intro c t h
    cases fp with
    | nil =>
        simp only [List.isEmpty_nil, if_true, List.nil_append] at h
        exact (hstop c t h).1
    | cons d0 ds =>
        simp only [List.isEmpty_cons, Bool.false_eq_true, if_false, List.cons_append,
          List.cons.injEq] at h
        rw [← h.1]; rfl
  have hint : parseIntPart (natPrint ip ++
        ((if fp.isEmpty then [] else '.' :: fp.map digitChar) ++ rest)) =
      some (ip, (if fp.isEmpty then [] else '.' :: fp.map digitChar) ++ rest) :=
    parseIntPart_natPrint ip _ hfps
  have hfrac := parseFracPart_printFrac neg ip fp hwf rest hstop
  obtain ⟨d, t, hd10, hshape⟩ := natPrint_shape ip
  cases neg with
  | true =>
      have hprint : printNum ⟨true, ip, fp⟩ ++ rest =
          '-' :: (natPrint ip ++ ((if fp.isEmpty then [] else '.' :: fp.map digitChar) ++ rest)) := by
        simp [printNum]
      rw [hprint, parseNumber, if_pos rfl, hint]
      exact hfrac
  | false =>
      have hprint : printNum ⟨false, ip, fp⟩ ++ rest =
          natPrint ip ++ ((if fp.isEmpty then [] else '.' :: fp.map digitChar) ++ rest) := by
        simp [printNum]
      rw [hprint, hshape, List.cons_append]
      have hneg : digitChar d ≠ '-' :=
        char_ne_of_toNat_ne (by
          rw [digitChar_toNat hd10, show ('-' : Char).toNat = 45 from rfl]; omega)
      rw [parseNumber, if_neg hneg, ← List.cons_append, ← hshape, hint]
      exact hfrac

/-! ## Lemmas: serializer heads and parser dispatch -/

theorem skipWs_cons {c : Char} (r : List Char) (h : isJsonWs c = false) :
    skipWs (c :: r) = c :: r := by
  simp [skipWs, List.dropWhile_cons, h]

theorem printNum_shape (n : JNum) :
    ∃ c t, printNum n = c :: t ∧ (c = '-' ∨ ∃ d, d < 10 ∧ c = digitChar d) := by
  obtain ⟨neg, ip, fp⟩ := n
  obtain ⟨d, t, hd10, hshape⟩ := natPrint_shape ip
  cases neg with
  | true =>
      refine ⟨'-', natPrint ip ++ (if fp.isEmpty then [] else '.' :: fp.map digitChar),
        ?_, Or.inl rfl⟩
      simp [printNum]
  | false =>
      refine ⟨digitChar d,
        t ++ (if fp.isEmpty then [] else '.' :: fp.map digitChar), ?_,
        Or.inr ⟨d, hd10, rfl⟩⟩
      simp [printNum, hshape]

theorem digitChar_ne {d : Nat} (hd : d < 10) (c : Char)
    (hc : c.toNat < 48 ∨ 57 < c.toNat) : digitChar d ≠ c :=
  char_ne_of_toNat_ne (by rw [digitChar_toNat hd]; omega)

/-- A serialized number starts with a character that is neither whitespace
nor any of the characters the parser dispatch tests for. -/
theorem numHead_facts {c : Char} (h : c = '-' ∨ ∃ d, d < 10 ∧ c = digitChar d) :
    isJsonWs c = false ∧ c ≠ ']' ∧ c ≠ '}' ∧ c ≠ ',' ∧ c ≠ '"' ∧ c ≠ '[' ∧ c ≠ '{' ∧
      c ≠ 'n' ∧ c ≠ 't' ∧ c ≠ 'f' := by
  rcases h with rfl | ⟨d, hd, rfl⟩
  · refine ⟨rfl, ?_, ?_, ?_, ?_, ?_, ?_, ?_, ?_, ?_⟩ <;> decide
  · refine ⟨?_, ?_, ?_, ?_, ?_, ?_, ?_, ?_, ?_, ?_⟩
    · simp only [isJsonWs, Bool.or_eq_false_iff, decide_eq_false_iff_not]
      exact ⟨⟨⟨digitChar_ne hd ' ' (by decide), digitChar_ne hd '\t' (by decide)⟩,
        digitChar_ne hd '\n' (by decide)⟩, digitChar_ne hd '\r' (by decide)⟩
    · exact digitChar_ne hd ']' (by decide)
    · exact digitChar_ne hd '}' (by decide)
    · exact digitChar_ne hd ',' (by decide)
    · exact digitChar_ne hd '"' (by decide)
    · exact digitChar_ne hd '[' (by decide)
    · exact digitChar_ne hd '{' (by decide)
    · exact digitChar_ne hd 'n' (by decide)
    · exact digitChar_ne hd 't' (by decide)
    · exact digitChar_ne hd 'f' (by decide)

/-- The facts about the head of a serialized value that drive the parser
dispatch. -/
theorem serializeJ_head (j : Json) :
    ∃ c t, serializeJ j = c :: t ∧ isJsonWs c = false ∧ c ≠ ']' ∧ c ≠ '}' ∧ c ≠ ',' := by
  cases j with
  | null => exact ⟨'n', _, rfl, by decide, by decide, by decide, by decide⟩
  | bool b => cases b with
      | true => exact ⟨'t', _, rfl, by decide, by decide, by decide, by decide⟩
      | false => exact ⟨'f', _, rfl, by decide, by decide, by decide, by decide⟩
  | num n =>
      obtain ⟨c, t, hshape, hkind⟩ := printNum_shape n
      obtain ⟨h1, h2, h3, h4, _⟩ := numHead_facts hkind
      exact ⟨c, t, hshape, h1, h2, h3, h4⟩
  | str s => exact ⟨'"', _, rfl, by decide, by decide, by decide, by decide⟩
  | arr xs => exact ⟨'[', _, rfl, by decide, by decide, by decide, by decide⟩
  | obj kvs => exact ⟨'{', _, rfl, by decide, by decide, by decide, by decide⟩

/-! ## Lemmas: duplicate keys and parser fuel -/

theorem objInsert_not_mem :
    ∀ (acc : List (String × Json)) (k : String) (v : Json),
      acc.any (fun kv => kv.1 == k) = false → objInsert acc k v = acc ++ [(k, v)] := by
  intro acc
  induction acc with
  | nil => intro k v _; rfl
  | cons hd tl ih =>
      intro k v h
      obtain ⟨k', v'⟩ := hd
      simp only [List.any_cons, Bool.or_eq_false_iff] at h
      have hk : ¬(k' = k) := by simpa using h.1
      simp only [objInsert, if_neg hk, List.cons_append]
      rw [ih k v h.2]

theorem dedupObj_go :
    ∀ (kvs acc : List (String × Json)), keysNodup kvs = true →
      (∀ kv ∈ kvs, acc.any (fun x => x.1 == kv.1) = false) →
      List.foldl (fun a kv => objInsert a kv.1 kv.2) acc kvs = acc ++ kvs := by
  intro kvs
  induction kvs with
  | nil => intro acc _ _; simp
  | cons hd tl ih =>
      intro acc hnd hdisj
      obtain ⟨k, v⟩ := hd
      simp only [keysNodup, Bool.and_eq_true, Bool.not_eq_true'] at hnd
      simp only [List.foldl_cons]
      rw [objInsert_not_mem acc k v (hdisj (k, v) (by simp))]
      rw [ih (acc ++ [(k, v)]) hnd.2 ?_]
      · simp
      · intro kv hkv
        simp only [List.any_append, Bool.or_eq_false_iff]
        refine ⟨hdisj kv (by simp [hkv]), ?_⟩
        have h1 : kv.1 ≠ k := by simpa using (List.any_eq_false.mp hnd.1) kv hkv
        simp [Ne.symm h1]

theorem dedupObj_eq_self {kvs : List (String × Json)} (h : keysNodup kvs = true) :
    dedupObj kvs = kvs := by
  unfold dedupObj
  rw [dedupObj_go kvs [] h (by intro kv _; rfl)]
  rfl

mutual

theorem jsize_le : ∀ j : Json, jsize j ≤ (serializeJ j).length
  | .null => by simp [jsize, serializeJ]
  | .bool b => by cases b <;> simp [jsize, serializeJ]
  | .num n => by
      obtain ⟨c, t, hshape, _⟩ := printNum_shape n
      simp [jsize, serializeJ, hshape]
  | .str s => by simp [jsize, serializeJ]
  | .arr xs => by
      have h := jsizeItems_le xs
      rw [show jsize (.arr xs) = 1 + jsizeItems xs from rfl,
        show serializeJ (.arr xs) = '[' :: serializeItems xs ++ [']'] from rfl]
      simp only [List.length_cons, List.length_append, List.length_nil]
      omega
  | .obj kvs => by
      have h := jsizeMembers_le kvs
      rw [show jsize (.obj kvs) = 1 + jsizeMembers kvs from rfl,
        show serializeJ (.obj kvs) = '{' :: serializeMembers kvs ++ ['}'] from rfl]
      simp only [List.length_cons, List.length_append, List.length_nil]
      omega

theorem jsizeItems_le : ∀ xs : List Json, jsizeItems xs ≤ (serializeItems xs).length + 1
  | [] => by simp [jsizeItems]
  | [x] => by
      have h := jsize_le x
      rw [show jsizeItems [x] = 1 + jsize x + jsizeItems [] from rfl,
        show serializeItems [x] = serializeJ x from rfl,
        show jsizeItems [] = 0 from rfl]
      omega
  | x :: y :: xs => by
      have h1 := jsize_le x
      have h2 := jsizeItems_le (y :: xs)
      rw [show jsizeItems (x :: y :: xs) = 1 + jsize x + jsizeItems (y :: xs) from rfl,
        show serializeItems (x :: y :: xs) = serializeJ x ++ ',' :: serializeItems (y :: xs)
          from rfl]
      simp only [List.length_append, List.length_cons]
      omega

theorem jsizeMembers_le :
    ∀ kvs : List (String × Json), jsizeMembers kvs ≤ (serializeMembers kvs).length + 1
  | [] => by simp [jsizeMembers]
  | [(k, v)] => by
      have h := jsize_le v
      rw [show jsizeMembers [(k, v)] = 1 + jsize v + jsizeMembers [] from rfl,
        show serializeMembers [(k, v)] =
          '"' :: escapeList k.data ++ '"' :: ':' :: serializeJ v from rfl,
        show jsizeMembers ([] : List (String × Json)) = 0 from rfl]
      simp only [List.length_cons, List.length_append]
      omega
  | (k, v) :: kv2 :: kvs => by
      have h1 := jsize_le v
      have h2 := jsizeMembers_le (kv2 :: kvs)
      rw [show jsizeMembers ((k, v) :: kv2 :: kvs) = 1 + jsize v + jsizeMembers (kv2 :: kvs)
          from rfl,
        show serializeMembers ((k, v) :: kv2 :: kvs) =
          '"' :: escapeList k.data ++ '"' :: ':' :: serializeJ v ++ ',' ::
            serializeMembers (kv2 :: kvs) from rfl]
      simp only [List.length_cons, List.length_append]
      omega

end

/-! ## Lemmas: the parse/serialize round-trip -/

/-- The stop condition a tail must satisfy so that a number parsed before
it does not absorb its first character. -/
def numStopAt (rest : List Char) : Prop :=
  ∀ c t, rest = c :: t → isDigitChar c = false ∧ c ≠ '.' ∧ c ≠ 'e' ∧ c ≠ 'E'

theorem numStopAt_rb (rest : List Char) : numStopAt (']' :: rest) := by
  intro c t h
  cases h
  refine ⟨rfl, ?_, ?_, ?_⟩ <;> decide

theorem numStopAt_cb (rest : List Char) : numStopAt ('}' :: rest) := by
  intro c t h
  cases h
  refine ⟨rfl, ?_, ?_, ?_⟩ <;> decide

theorem numStopAt_comma (rest : List Char) : numStopAt (',' :: rest) := by
  intro c t h
  cases h
  refine ⟨rfl, ?_, ?_, ?_⟩ <;> decide

mutual

theorem parseValue_ser : ∀ fuel (j : Json) (rest : List Char), jwf j = true →
    jsize j ≤ fuel → numStopAt rest →
    parseValue fuel (serializeJ j ++ rest) = some (j, rest)
  | fuel + 1, .null, rest => by
      intro _ _ _
      show parseValue (fuel + 1) ('n' :: 'u' :: 'l' :: 'l' :: rest) = some (.null, rest)
      rw [parseValue, skipWs_cons _ (by decide)]
      simp
  | fuel + 1, .bool true, rest => by
      intro _ _ _
      show parseValue (fuel + 1) ('t' :: 'r' :: 'u' :: 'e' :: rest) = some (.bool true, rest)
      rw [parseValue, skipWs_cons _ (by decide)]
      simp
  | fuel + 1, .bool false, rest => by
      intro _ _ _
      show parseValue (fuel + 1) ('f' :: 'a' :: 'l' :: 's' :: 'e' :: rest) = some (.bool false, rest)
      rw [parseValue, skipWs_cons _ (by decide)]
      simp
  | fuel + 1, .str s, rest => by
      intro _ _ _
      have hser : serializeJ (.str s) ++ rest = '"' :: (escapeList s.data ++ '"' :: rest) := by
        simp [serializeJ]
      rw [hser, parseValue, skipWs_cons _ (by decide)]
      simp [parseStringBody_escape s.data rest]
  | fuel + 1, .num n, rest => by
      intro hwf _ hstop
      obtain ⟨c, t, hshape, hkind⟩ := printNum_shape n
      obtain ⟨hws, _, _, _, hq, hlb, hob, hn, ht, hf⟩ := numHead_facts hkind
      have hser : serializeJ (.num n) ++ rest = c :: (t ++ rest) := by
        simp [serializeJ, hshape]
      have hwfn : n.wf := by simpa [jwf] using hwf
      have hp : parseNumber (c :: (t ++ rest)) = some (n, rest) := by
        rw [show (c :: (t ++ rest) : List Char) = (c :: t) ++ rest from rfl, ← hshape]
        exact parseNumber_printNum n hwfn rest hstop
      rw [hser, parseValue, skipWs_cons _ hws]
      simp [hq, hlb, hob, hn, ht, hf, hp]
  | fuel + 1, .arr [], rest => by
      intro _ _ _
      show parseValue (fuel + 1) ('[' :: ']' :: rest) = some (.arr [], rest)
      rw [parseValue, skipWs_cons _ (by decide)]
      simp [skipWs_cons _ (by decide : isJsonWs ']' = false)]
  | fuel + 1, .arr (x :: xs), rest => by
      intro hwf hsz hstop
      obtain ⟨c, t, hshape, hws, hrb, _, _⟩ := serializeJ_head x
      obtain ⟨u, hu⟩ : ∃ u, serializeItems (x :: xs) = c :: u := by
        cases xs with
        | nil => exact ⟨t, by simp [serializeItems, hshape]⟩
        | cons y ys =>
            exact ⟨t ++ ',' :: serializeItems (y :: ys), by simp [serializeItems, hshape]⟩
      have hser : serializeJ (.arr (x :: xs)) ++ rest =
          '[' :: (serializeItems (x :: xs) ++ ']' :: rest) := by
        simp [serializeJ]
      rw [hser, parseValue, skipWs_cons _ (by decide)]
      have hscrut : serializeItems (x :: xs) ++ ']' :: rest = c :: (u ++ ']' :: rest) := by
        rw [hu]; rfl
      simp only [hscrut]
      rw [skipWs_cons _ hws]
      have hitems : parseItems fuel (serializeItems (x :: xs) ++ ']' :: rest) =
          some (x :: xs, rest) := by
        apply parseItems_ser fuel (x :: xs) rest (by simp)
        · simpa [jwf] using hwf
        · have : jsize (.arr (x :: xs)) = 1 + jsizeItems (x :: xs) := rfl
          omega
      rw [hscrut] at hitems
      simp [hrb, hitems]
  | fuel + 1, .obj [], rest => by
      intro _ _ _
      show parseValue (fuel + 1) ('{' :: '}' :: rest) = some (.obj [], rest)
      rw [parseValue, skipWs_cons _ (by decide)]
      simp [skipWs_cons _ (by decide : isJsonWs '}' = false), dedupObj]
  | fuel + 1, .obj ((k, v) :: kvs), rest => by
      intro hwf hsz hstop
      have hser : serializeJ (.obj ((k, v) :: kvs)) ++ rest =
          '{' :: (serializeMembers ((k, v) :: kvs) ++ '}' :: rest) := by
        simp [serializeJ]
      obtain ⟨u, hu⟩ : ∃ u, serializeMembers ((k, v) :: kvs) = '"' :: u := by
        cases kvs with
        | nil => exact ⟨escapeList k.data ++ '"' :: ':' :: serializeJ v, rfl⟩
        | cons kv2 kvs2 =>
            exact ⟨escapeList k.data ++ '"' :: ':' :: serializeJ v ++ ',' ::
              serializeMembers (kv2 :: kvs2), rfl⟩
      rw [hser, parseValue, skipWs_cons _ (by decide)]
      have hscrut : serializeMembers ((k, v) :: kvs) ++ '}' :: rest =
          '"' :: (u ++ '}' :: rest) := by
        rw [hu]; rfl
      simp only [hscrut]
      rw [skipWs_cons _ (by decide)]
      have hwf' : keysNodup ((k, v) :: kvs) = true ∧ jwfMembers ((k, v) :: kvs) = true := by
        simpa [jwf, Bool.and_eq_true] using hwf
      have hmembers : parseMembers fuel (serializeMembers ((k, v) :: kvs) ++ '}' :: rest) =
          some ((k, v) :: kvs, rest) := by
        apply parseMembers_ser fuel ((k, v) :: kvs) rest (by simp) hwf'.2
        have : jsize (.obj ((k, v) :: kvs)) = 1 + jsizeMembers ((k, v) :: kvs) := rfl
        omega
      rw [hscrut] at hmembers
      simp [hmembers, dedupObj_eq_self hwf'.1]
  | 0, j, rest => by
      intro _ hsz _
      exfalso
      have : 1 ≤ jsize j := by cases j <;> simp [jsize]
      omega

theorem parseItems_ser : ∀ fuel (xs : List Json) (rest : List Char), xs ≠ [] →
    jwfItems xs = true → jsizeItems xs ≤ fuel →
    parseItems fuel (serializeItems xs ++ ']' :: rest) = some (xs, rest)
  | fuel + 1, [], rest => by intro h _ _; exact absurd rfl h
  | fuel + 1, [x], rest => by
      intro _ hwf hsz
      have hwfx : jwf x = true := by simpa [jwfItems] using hwf
      have hszx : jsize x ≤ fuel := by
        have : jsizeItems [x] = 1 + jsize x + jsizeItems [] := rfl
        have h0 : jsizeItems ([] : List Json) = 0 := rfl
        omega
      rw [show serializeItems [x] = serializeJ x from rfl, parseItems,
        parseValue_ser fuel x (']' :: rest) hwfx hszx (numStopAt_rb rest)]
      simp [skipWs_cons _ (by decide : isJsonWs ']' = false)]
  | fuel + 1, x :: y :: ys, rest => by
      intro _ hwf hsz
      have hwfs : jwf x = true ∧ jwfItems (y :: ys) = true := by
        simpa [jwfItems, Bool.and_eq_true] using hwf
      have hszs : jsize x ≤ fuel ∧ jsizeItems (y :: ys) ≤ fuel := by
        have : jsizeItems (x :: y :: ys) = 1 + jsize x + jsizeItems (y :: ys) := rfl
        omega
      have hser : serializeItems (x :: y :: ys) ++ ']' :: rest =
          serializeJ x ++ (',' :: (serializeItems (y :: ys) ++ ']' :: rest)) := by
        rw [show serializeItems (x :: y :: ys) =
          serializeJ x ++ ',' :: serializeItems (y :: ys) from rfl]
        simp
      rw [hser, parseItems,
        parseValue_ser fuel x _ hwfs.1 hszs.1 (numStopAt_comma _)]
      simp [skipWs, List.dropWhile_cons, isJsonWs,
        parseItems_ser fuel (y :: ys) rest (by simp) hwfs.2 hszs.2]
  | 0, xs, rest => by
      intro hne _ hsz
      exfalso
      cases xs with
      | nil => exact hne rfl
      | cons x xs =>
          have : jsizeItems (x :: xs) = 1 + jsize x + jsizeItems xs := rfl
          omega

theorem parseMembers_ser : ∀ fuel (kvs : List (String × Json)) (rest : List Char),
    kvs ≠ [] → jwfMembers kvs = true → jsizeMembers kvs ≤ fuel →
    parseMembers fuel (serializeMembers kvs ++ '}' :: rest) = some (kvs, rest)
  | fuel + 1, [], rest => by intro h _ _; exact absurd rfl h
  | fuel + 1, [(k, v)], rest => by
      intro _ hwf hsz
      have hwfv : jwf v = true := by simpa [jwfMembers] using hwf
      have hszv : jsize v ≤ fuel := by
        have : jsizeMembers [(k, v)] = 1 + jsize v + jsizeMembers [] := rfl
        have h0 : jsizeMembers ([] : List (String × Json)) = 0 := rfl
        omega
      have hser : serializeMembers [(k, v)] ++ '}' :: rest =
          '"' :: (escapeList k.data ++ '"' :: (':' :: (serializeJ v ++ '}' :: rest))) := by
        rw [show serializeMembers [(k, v)] =
          '"' :: escapeList k.data ++ '"' :: ':' :: serializeJ v from rfl]
        simp
      rw [hser, parseMembers, skipWs_cons _ (by decide)]
      simp [parseStringBody_escape k.data, skipWs, List.dropWhile_cons, isJsonWs,
        parseValue_ser fuel v _ hwfv hszv (numStopAt_cb rest)]
  | fuel + 1, (k, v) :: kv2 :: kvs, rest => by
      intro _ hwf hsz
      have hwfs : jwf v = true ∧ jwfMembers (kv2 :: kvs) = true := by
        simpa [jwfMembers, Bool.and_eq_true] using hwf
      have hszs : jsize v ≤ fuel ∧ jsizeMembers (kv2 :: kvs) ≤ fuel := by
        have : jsizeMembers ((k, v) :: kv2 :: kvs) =
          1 + jsize v + jsizeMembers (kv2 :: kvs) := rfl
        omega
      have hser : serializeMembers ((k, v) :: kv2 :: kvs) ++ '}' :: rest =
          '"' :: (escapeList k.data ++ '"' :: (':' :: (serializeJ v ++
            ',' :: (serializeMembers (kv2 :: kvs) ++ '}' :: rest)))) := by
        rw [show serializeMembers ((k, v) :: kv2 :: kvs) =
          '"' :: escapeList k.data ++ '"' :: ':' :: serializeJ v ++ ',' ::
            serializeMembers (kv2 :: kvs) from rfl]
        simp
      rw [hser, parseMembers, skipWs_cons _ (by decide)]
      simp [parseStringBody_escape k.data, skipWs, List.dropWhile_cons, isJsonWs,
        parseValue_ser fuel v _ hwfs.1 hszs.1 (numStopAt_comma _),
        parseMembers_ser fuel (kv2 :: kvs) rest (by simp) hwfs.2 hszs.2]
  | 0, kvs, rest => by
      intro hne _ hsz
      exfalso
      cases kvs with
      | nil => exact hne rfl
      | cons kv kvs =>
          obtain ⟨k, v⟩ := kv
          have : jsizeMembers ((k, v) :: kvs) = 1 + jsize v + jsizeMembers kvs := rfl
          omega

end

theorem numStopAt_nil : numStopAt [] := by
  intro c t h
  cases h

/-- `JSON.parse (JSON.stringify j) = j` for well-formed values. -/
theorem jsonParse_stringify {j : Json} (hwf : jwf j = true) :
    jsonParse (jsonStringify j) = .ok j := by
  have hdata : (jsonStringify j).data = serializeJ j := rfl
  have hfuel : jsize j ≤ (serializeJ j).length + 1 := by
    have := jsize_le j
    omega
  have hp : parseValue ((serializeJ j).length + 1) (serializeJ j ++ []) = some (j, []) :=
    parseValue_ser _ j [] hwf hfuel numStopAt_nil
  rw [List.append_nil] at hp
  unfold jsonParse
  rw [hdata, hp]
  rfl

/-! ## Lemmas: UTF-8 round-trip -/

theorem char_valid_toNat (c : Char) :
    c.toNat < 55296 ∨ (57343 < c.toNat ∧ c.toNat < 1114112) := c.valid

theorem utf8EncodeChar_lt (c : Char) : ∀ b ∈ utf8EncodeChar c, b < 256 := by
  intro b hb
  have hv := char_valid_toNat c
  unfold utf8EncodeChar at hb
  split_ifs at hb <;> simp at hb <;> omega

theorem utf8EncodeList_lt : ∀ cs : List Char, ∀ b ∈ utf8EncodeList cs, b < 256 := by
  intro cs
  induction cs with
  | nil => intro b hb; cases hb
  | cons c cs ih =>
      intro b hb
      rw [utf8EncodeList] at hb
      rcases List.mem_append.mp hb with h | h
      · exact utf8EncodeChar_lt c b h
      · exact ih b h

theorem utf8EncodeChar_length_pos (c : Char) : 1 ≤ (utf8EncodeChar c).length := by
  unfold utf8EncodeChar
  split_ifs <;> simp

theorem utf8Step_encodeChar (c : Char) (rest : List Nat) :
    ∃ b bs, utf8EncodeChar c ++ rest = b :: bs ∧ utf8Step b bs = (c, rest) := by
  have hv := char_valid_toNat c
  by_cases h1 : c.toNat < 128
  · refine ⟨c.toNat, rest, by simp [utf8EncodeChar, h1], ?_⟩
    rw [utf8Step, if_pos h1, Char.ofNat_toNat]
  · by_cases h2 : c.toNat < 2048
    · refine ⟨192 + c.toNat / 64, (128 + c.toNat % 64) :: rest,
        by simp [utf8EncodeChar, h1, h2], ?_⟩
      rw [utf8Step, if_neg (by omega), if_neg (by omega), if_pos (by omega)]
      simp only [List.headD_cons, List.tail_cons, List.length_cons]
      have hcond : (1 ≤ rest.length + 1 && isCont (128 + c.toNat % 64)) = true := by
        simp [isCont]; omega
      rw [if_pos hcond]
      have harith : (192 + c.toNat / 64 - 192) * 64 + (128 + c.toNat % 64 - 128) = c.toNat := by
        omega
      rw [harith, Char.ofNat_toNat]
    · by_cases h3 : c.toNat < 65536
      · refine ⟨224 + c.toNat / 4096, (128 + c.toNat / 64 % 64) :: (128 + c.toNat % 64) :: rest,
          by simp [utf8EncodeChar, h1, h2, h3], ?_⟩
        rw [utf8Step, if_neg (by omega), if_neg (by omega), if_neg (by omega),
          if_pos (by omega)]
        simp only [List.headD_cons, List.tail_cons, List.length_cons]
        have hcont : contRangeOk (224 + c.toNat / 4096) (128 + c.toNat / 64 % 64) = true := by
          unfold contRangeOk
          split_ifs <;> (simp [isCont]; omega)
        have hcond : (2 ≤ rest.length + 1 + 1 &&
            contRangeOk (224 + c.toNat / 4096) (128 + c.toNat / 64 % 64) &&
            isCont (128 + c.toNat % 64)) = true := by
          rw [hcont]
          simp [isCont]; omega
        rw [if_pos hcond]
        have harith : (224 + c.toNat / 4096 - 224) * 4096 + (128 + c.toNat / 64 % 64 - 128) * 64
            + (128 + c.toNat % 64 - 128) = c.toNat := by omega
        rw [harith, Char.ofNat_toNat]
      · refine ⟨240 + c.toNat / 262144, (128 + c.toNat / 4096 % 64) ::
          (128 + c.toNat / 64 % 64) :: (128 + c.toNat % 64) :: rest,
          by simp [utf8EncodeChar, h1, h2, h3], ?_⟩
        rw [utf8Step, if_neg (by omega), if_neg (by omega), if_neg (by omega),
          if_neg (by omega), if_pos (by omega)]
        simp only [List.headD_cons, List.tail_cons, List.length_cons]
        have hcont : contRangeOk (240 + c.toNat / 262144) (128 + c.toNat / 4096 % 64) = true := by
          unfold contRangeOk
          split_ifs <;> (simp [isCont]; omega)
        have hcond : (3 ≤ rest.length + 1 + 1 + 1 &&
            contRangeOk (240 + c.toNat / 262144) (128 + c.toNat / 4096 % 64) &&
            isCont (128 + c.toNat / 64 % 64) && isCont (128 + c.toNat % 64)) = true := by
          rw [hcont]
          simp [isCont]; omega
        rw [if_pos hcond]
        have harith : (240 + c.toNat / 262144 - 240) * 262144 +
            (128 + c.toNat / 4096 % 64 - 128) * 4096 +
            (128 + c.toNat / 64 % 64 - 128) * 64 + (128 + c.toNat % 64 - 128) = c.toNat := by
          omega
        rw [harith, Char.ofNat_toNat]

theorem utf8_decode_encode :
    ∀ (cs : List Char) (fuel : Nat), cs.length ≤ fuel →
      utf8DecodeLossyAux fuel (utf8EncodeList cs) = cs := by
  intro cs
  induction cs with
  | nil =>
      intro fuel _
      cases fuel <;> rfl
  | cons c cs ih =>
      intro fuel hfuel
      match fuel, hfuel with
      | f + 1, hfuel =>
        have ihf : utf8DecodeLossyAux f (utf8EncodeList cs) = cs := ih f (by
          simp only [List.length_cons] at hfuel
          omega)
        obtain ⟨b, bs, hshape, hstep⟩ := utf8Step_encodeChar c (utf8EncodeList cs)
        rw [show utf8EncodeList (c :: cs) = utf8EncodeChar c ++ utf8EncodeList cs from rfl,
          hshape, utf8DecodeLossyAux, hstep, ihf]

theorem utf8EncodeList_length :
    ∀ cs : List Char, cs.length ≤ (utf8EncodeList cs).length := by
  intro cs
  induction cs with
  | nil => simp [utf8EncodeList]
  | cons c cs ih =>
      have := utf8EncodeChar_length_pos c
      rw [utf8EncodeList]
      simp only [List.length_cons, List.length_append]
      omega

/-- `Buffer.from(s).toString('utf8') = s`. -/
theorem utf8DecodeLossy_encode (s : String) : utf8DecodeLossy (utf8Encode s) = s.data := by
  unfold utf8DecodeLossy utf8Encode
  exact utf8_decode_encode s.data _ (utf8EncodeList_length s.data)

theorem b64ValOf_charOf : ∀ v, v < 64 → b64ValOf (b64CharOf v) = some v := by decide

theorem b64CharOf_url_roundtrip :
    ∀ v, v < 64 → urlToStd (plusSlashToUrl (b64CharOf v)) = b64CharOf v := by decide

theorem b64CharOf_url_ne_eq : ∀ v, v < 64 → plusSlashToUrl (b64CharOf v) ≠ '=' := by decide

theorem b64CharOf_ne_eq : ∀ v, v < 64 → b64CharOf v ≠ '=' := by decide

/-- Every character the encoder emits is `=` or an alphabet character. -/
theorem b64Encode_shape :
    ∀ bytes : List Nat, (∀ b ∈ bytes, b < 256) →
      ∀ c ∈ b64Encode bytes, c = '=' ∨ ∃ v, v < 64 ∧ c = b64CharOf v := by
  intro bytes
  induction bytes using b64Encode.induct with
  | case1 =>
      intro _ c hc
      cases hc
  | case2 a =>
      intro hlt c hc
      have ha : a < 256 := hlt a (by simp)
      simp only [b64Encode, List.mem_cons, List.not_mem_nil, or_false] at hc
      rcases hc with rfl | rfl | rfl | rfl
      · exact Or.inr ⟨a / 4, by omega, rfl⟩
      · exact Or.inr ⟨a % 4 * 16, by omega, rfl⟩
      · exact Or.inl rfl
      · exact Or.inl rfl
  | case3 a b =>
      intro hlt c hc
      have ha : a < 256 := hlt a (by simp)
      have hb : b < 256 := hlt b (by simp)
      simp only [b64Encode, List.mem_cons, List.not_mem_nil, or_false] at hc
      rcases hc with rfl | rfl | rfl | rfl
      · exact Or.inr ⟨a / 4, by omega, rfl⟩
      · exact Or.inr ⟨a % 4 * 16 + b / 16, by omega, rfl⟩
      · exact Or.inr ⟨b % 16 * 4, by omega, rfl⟩
      · exact Or.inl rfl
  | case4 a b c' rest ih =>
      intro hlt c hc
      have ha : a < 256 := hlt a (by simp)
      have hb : b < 256 := hlt b (by simp)
      have hc' : c' < 256 := hlt c' (by simp)
      simp only [b64Encode, List.mem_cons] at hc
      rcases hc with rfl | rfl | rfl | rfl | hmem
      · exact Or.inr ⟨a / 4, by omega, rfl⟩
      · exact Or.inr ⟨a % 4 * 16 + b / 16, by omega, rfl⟩
      · exact Or.inr ⟨b % 16 * 4 + c' / 64, by omega, rfl⟩
      · exact Or.inr ⟨c' % 64, by omega, rfl⟩
      · exact ih (fun x hx => hlt x (by simp [hx])) c hmem

theorem takeWhile_append_replicate (xs : List Char) (k : Nat)
    (h : ∀ x ∈ xs, x ≠ '=') :
    (xs ++ List.replicate k '=').takeWhile (fun c => c ≠ '=') = xs := by
  induction xs with
  | nil =>
      cases k with
      | zero => rfl
      | succ k => simp [List.replicate_succ, List.takeWhile_cons]
  | cons x xs ih =>
      have hx : x ≠ '=' := h x (by simp)
      rw [List.cons_append, List.takeWhile_cons, if_pos (by simpa using hx)]
      rw [ih (fun y hy => h y (by simp [hy]))]

theorem map_url_filter (l : List Char)
    (hshape : ∀ c ∈ l, c = '=' ∨ ∃ v, v < 64 ∧ c = b64CharOf v) :
    ((l.map plusSlashToUrl).filter (fun c => c ≠ '=')).map urlToStd =
      l.filter (fun c => c ≠ '=') := by
  induction l with
  | nil => rfl
  | cons e l ih =>
      have ihl := ih (fun c hc => hshape c (by simp [hc]))
      simp only [ne_eq, decide_not] at ihl
      rcases hshape e (by simp) with rfl | ⟨v, hv, rfl⟩
      · simp only [List.map_cons, List.filter_cons]
        rw [show plusSlashToUrl '=' = '=' from rfl]
        simp [ihl]
      · have h1 : plusSlashToUrl (b64CharOf v) ≠ '=' := b64CharOf_url_ne_eq v hv
        have h2 : b64CharOf v ≠ '=' := b64CharOf_ne_eq v hv
        simp only [List.map_cons, List.filter_cons]
        simp [h1, h2, b64CharOf_url_roundtrip v hv, ihl]

theorem filterMap_filter_b64 (l : List Char) :
    ((l.filter (fun c => c ≠ '=')).filterMap b64ValOf) = l.filterMap b64ValOf := by
  induction l with
  | nil => rfl
  | cons e l ih =>
      have ih2 := ih
      simp only [ne_eq, decide_not] at ih2
      by_cases he : e = '='
      · subst he
        simp only [List.filter_cons]
        rw [if_neg (by simp)]
        rw [List.filterMap_cons]
        rw [show b64ValOf '=' = none from rfl]
        exact ih
      · simp only [List.filter_cons]
        rw [if_pos (by simpa using he)]
        rw [List.filterMap_cons, List.filterMap_cons]
        cases b64ValOf e <;> simp [ih, ih2]

theorem b64Bytes_encode :
    ∀ bytes : List Nat, (∀ b ∈ bytes, b < 256) →
      b64Bytes ((b64Encode bytes).filterMap b64ValOf) = bytes := by
  intro bytes
  induction bytes using b64Encode.induct with
  | case1 => intro _; rfl
  | case2 a =>
      intro hlt
      have ha : a < 256 := hlt a (by simp)
      rw [show b64Encode [a] = [b64CharOf (a / 4), b64CharOf (a % 4 * 16), '=', '='] from rfl]
      simp only [List.filterMap_cons, b64ValOf_charOf (a / 4) (by omega),
        b64ValOf_charOf (a % 4 * 16) (by omega),
        show b64ValOf '=' = none from rfl, List.filterMap_nil]
      rw [show b64Bytes [a / 4, a % 4 * 16] = [a / 4 * 4 + a % 4 * 16 / 16] from rfl]
      have : a / 4 * 4 + a % 4 * 16 / 16 = a := by omega
      rw [this]
  | case3 a b =>
      intro hlt
      have ha : a < 256 := hlt a (by simp)
      have hb : b < 256 := hlt b (by simp)
      rw [show b64Encode [a, b] =
        [b64CharOf (a / 4), b64CharOf (a % 4 * 16 + b / 16), b64CharOf (b % 16 * 4), '='] from rfl]
      simp only [List.filterMap_cons, b64ValOf_charOf (a / 4) (by omega),
        b64ValOf_charOf (a % 4 * 16 + b / 16) (by omega),
        b64ValOf_charOf (b % 16 * 4) (by omega),
        show b64ValOf '=' = none from rfl, List.filterMap_nil]
      rw [show b64Bytes [a / 4, a % 4 * 16 + b / 16, b % 16 * 4] =
        [a / 4 * 4 + (a % 4 * 16 + b / 16) / 16,
         (a % 4 * 16 + b / 16) % 16 * 16 + b % 16 * 4 / 4] from rfl]
      have h1 : a / 4 * 4 + (a % 4 * 16 + b / 16) / 16 = a := by omega
      have h2 : (a % 4 * 16 + b / 16) % 16 * 16 + b % 16 * 4 / 4 = b := by omega
      rw [h1, h2]
  | case4 a b c rest ih =>
      intro hlt
      have ha : a < 256 := hlt a (by simp)
      have hb : b < 256 := hlt b (by simp)
      have hc : c < 256 := hlt c (by simp)
      have ihr := ih (fun x hx => hlt x (by simp [hx]))
      rw [show b64Encode (a :: b :: c :: rest) =
        b64CharOf (a / 4) :: b64CharOf (a % 4 * 16 + b / 16) ::
          b64CharOf (b % 16 * 4 + c / 64) :: b64CharOf (c % 64) :: b64Encode rest from rfl]
      simp only [List.filterMap_cons, b64ValOf_charOf (a / 4) (by omega),
        b64ValOf_charOf (a % 4 * 16 + b / 16) (by omega),
        b64ValOf_charOf (b % 16 * 4 + c / 64) (by omega),
        b64ValOf_charOf (c % 64) (by omega)]
      rw [show ∀ r, b64Bytes (a / 4 :: (a % 4 * 16 + b / 16) ::
          (b % 16 * 4 + c / 64) :: c % 64 :: r) =
          (a / 4 * 4 + (a % 4 * 16 + b / 16) / 16) ::
          ((a % 4 * 16 + b / 16) % 16 * 16 + (b % 16 * 4 + c / 64) / 4) ::
          ((b % 16 * 4 + c / 64) % 4 * 64 + c % 64) :: b64Bytes r from fun r => rfl]
      have h1 : a / 4 * 4 + (a % 4 * 16 + b / 16) / 16 = a := by omega
      have h2 : (a % 4 * 16 + b / 16) % 16 * 16 + (b % 16 * 4 + c / 64) / 4 = b := by omega
      have h3 : (b % 16 * 4 + c / 64) % 4 * 64 + c % 64 = c := by omega
      rw [h1, h2, h3, ihr]

/-- `base64urlDecode (base64urlEncode bytes) = bytes` for byte input. -/
theorem base64urlDecode_encode (bytes : List Nat) (hlt : ∀ b ∈ bytes, b < 256) :
    base64urlDecode (base64urlEncode bytes) = bytes := by
  have hshape := b64Encode_shape bytes hlt
  have hchain := map_url_filter (b64Encode bytes) hshape
  unfold base64urlDecode base64urlEncode b64DecodeLenient
  rw [show (String.mk (((b64Encode bytes).map plusSlashToUrl).filter (fun c => c ≠ '='))).data
    = ((b64Encode bytes).map plusSlashToUrl).filter (fun c => c ≠ '=') from rfl]
  rw [List.map_append, List.map_replicate]
  rw [show urlToStd '=' = '=' from rfl]
  rw [hchain]
  rw [takeWhile_append_replicate _ _ ?hne]
  case hne =>
    intro x hx
    have := List.of_mem_filter hx
    simpa using this
  rw [filterMap_filter_b64]
  exact b64Bytes_encode bytes hlt

/-! ## `ProductOffer` (spec §3) as produced by the search handler
(`server.js` lines 310–329): the JS object
`{asin, title, url, image, price: {amount, currency: "USD"},
offerId, meta: {source, fetchedAt}}`. -/

structure ProductOffer where
  asin : String
  title : String
  url : String
  image : String
  priceAmount : JNum
  offerId : Option String
  metaSource : String
  metaFetchedAt : String
deriving DecidableEq, Repr

/-- The JSON value of the offer object, keys in the construction order of
`server.js` lines 312–326 (`offerId: item.offer_id || null`). -/
def ProductOffer.toJson (x : ProductOffer) : Json :=
  .obj [("asin", .str x.asin), ("title", .str x.title), ("url", .str x.url),
    ("image", .str x.image),
    ("price", .obj [("amount", .num x.priceAmount), ("currency", .str "USD")]),
    ("offerId", match x.offerId with | some s => .str s | none => .null),
    ("meta", .obj [("source", .str x.metaSource), ("fetchedAt", .str x.metaFetchedAt)])]

/-- A valid offer value: one whose JSON image is well formed (its price
amount is a canonical decimal literal; the fixed key sets have no
duplicates by construction). -/
def ProductOffer.wfB (x : ProductOffer) : Bool := jwf x.toJson

/-- `decodeProduct` inverts the blob built by `signProduct`, for any
well-formed product value. -/
theorem decodeProduct_signProduct (hh : String → String → String) (secret : String)
    {product : Json} (hwf : jwf product = true) :
    decodeProduct (signProduct hh secret product).1 = .ok product := by
  rw [show (signProduct hh secret product).1
      = base64urlEncode (utf8Encode (jsonStringify product)) from rfl]
  unfold decodeProduct
  rw [base64urlDecode_encode (utf8Encode (jsonStringify product))
    (utf8EncodeList_lt (jsonStringify product).data)]
  rw [utf8DecodeLossy_encode]
  rw [show String.mk (jsonStringify product).data = jsonStringify product from rfl]
  rw [jsonParse_stringify hwf]

/-! ## Shared concrete values for the claim witnesses -/

/-- A stand-in HMAC whose digests are 64 hex characters, as SHA-256 hex
digests are. -/
def hmacW : String → String → String := fun _ _ => String.mk (List.replicate 64 'a')

/-- A concrete well-formed offer, as the search handler builds them. -/
def offerW : ProductOffer :=
  ⟨"B08C7KG5LP", "Apple AirPods (3rd Generation)", "https://amazon.com/dp/B08C7KG5LP",
   "", ⟨false, 169, [9, 9]⟩, none, "serpapi", "2026-01-01T00:00:00.000Z"⟩

/-! ## C8 -/

/-- C8: for every catalog snapshot, `validateAsin` on an absent identifier
succeeds: the outcome is valid, tagged `used_default`, carries the
configured default identifier, and its product is the catalog's entry for
that default identifier. -/
theorem C8_validateAsin_default (catalog : Catalog) :
    (validateAsin catalog .undef).valid = true ∧
    (validateAsin catalog .undef).reason = "used_default" ∧
    (validateAsin catalog .undef).asin = .val (.str catalog.defaultASIN) ∧
    (validateAsin catalog .undef).product =
      catalog.products.find? (fun p => p.asin == catalog.defaultASIN) :=
  ⟨rfl, rfl, rfl, rfl⟩

/-! ## C2 -/

theorem hexPairs_length (l : List Char) (h : ∀ c ∈ l, (hexVal c).isSome = true) :
    (hexPairs l).length = l.length / 2 := by
  induction l using hexPairs.induct with
  | case1 c1 c2 rest a b hb2 ha1 ih =>
      have := ih (fun c hc => h c (by simp [hc]))
      simp only [hexPairs, ha1, hb2, List.length_cons, this]
      omega
  | case2 c1 c2 rest hnot =>
      have h1 := h c1 (by simp)
      have h2 := h c2 (by simp)
      cases ha : hexVal c1 with
      | none => rw [ha] at h1; cases h1
      | some a =>
          cases hb : hexVal c2 with
          | none => rw [hb] at h2; cases h2
          | some b => exact absurd (hnot a b ha hb) not_false
  | case3 l hshape =>
      cases l with
      | nil => simp [hexPairs]
      | cons c t =>
          cases t with
          | nil => simp [hexPairs]
          | cons c2 t2 => exact absurd (hshape c c2 t2 rfl) not_false

/-- C2: contrary to the spec, `verifyProductSignature` throws on a
malformed signature: whenever the submitted signature's hex decoding does
not have the 32-byte length of the expected digest's decoding — the empty
signature here — `crypto.timingSafeEqual` raises instead of returning
`false`. -/
theorem C2_verify_throws_on_short_signature (hh : String → String → String)
    (secret blob : String)
    (hlen : (hh secret blob).data.length = 64)
    (hhex : ∀ c ∈ (hh secret blob).data, (hexVal c).isSome = true) :
    verifyProductSignature hh secret blob "" =
      .error "Input buffers must have the same byte length" := by
  unfold verifyProductSignature timingSafeEqual
  have h2 : (hexPairs (hh secret blob).data).length = 32 := by
    rw [hexPairs_length _ hhex, hlen]
  rw [show hexPairs ("" : String).data = [] from rfl]
  rw [if_pos (by simp [h2])]

theorem C2_verify_throws_on_short_signature_witness :
    (hmacW "secret" "blob").data.length = 64 ∧
    verifyProductSignature hmacW "secret" "blob" "" =
      .error "Input buffers must have the same byte length" :=
  ⟨by decide, C2_verify_throws_on_short_signature hmacW "secret" "blob" (by decide) (by decide)⟩

/-! ## C5 -/

theorem idemFind_filter_none (p : Json × IdemEntry → Bool) :
    ∀ (cache : IdemCache) (key : Json), idemFind cache key = none →
      idemFind (cache.filter p) key = none := by
  intro cache key h
  induction cache with
  | nil => rfl
  | cons kv rest ih =>
      obtain ⟨k', e⟩ := kv
      rw [idemFind] at h
      by_cases hk : k' = key
      · rw [if_pos hk] at h; cases h
      · rw [if_neg hk] at h
        rw [List.filter_cons]
        by_cases hp : p (k', e) = true
        · rw [if_pos hp, idemFind, if_neg hk]
          exact ih h
        · rw [if_neg hp]
          exact ih h

theorem idemFind_reap_expired :
    ∀ (now : Int) (key : Json) (cache : IdemCache) (e : IdemEntry),
      idemKeysNodup cache → idemFind cache key = some e →
      3600000 ≤ now - e.timestamp →
      idemFind (reapIdempotency now cache) key = none := by
  intro now key cache
  induction cache with
  | nil => intro e _ hfind; cases hfind
  | cons kv rest ih =>
      obtain ⟨k', e'⟩ := kv
      intro e hnd hfind hold
      obtain ⟨hk1, hk2⟩ := hnd
      rw [idemFind] at hfind
      unfold reapIdempotency
      rw [List.filter_cons]
      by_cases hk : k' = key
      · rw [if_pos hk] at hfind
        injection hfind with he
        subst he; subst hk
        rw [if_neg (by simpa using hold)]
        exact idemFind_filter_none _ rest k' hk1
      · rw [if_neg hk] at hfind
        by_cases hp : (fun kv => !(3600000 ≤ now - kv.2.timestamp : Bool)) (k', e') = true
        · rw [if_pos hp, idemFind, if_neg hk]
          exact ih e hk2 hfind hold
        · rw [if_neg hp]
          exact ih e hk2 hfind hold

/-- C5: a record whose age exceeds the 3600-second window is treated as
absent by `checkIdempotency` (no cache hit), and one reaper pass removes
it with no request for its key needed. -/
theorem C5_expired_record_absent (now : Int) (key : Json) (cache : IdemCache)
    (e : IdemEntry) (hnd : idemKeysNodup cache) (hfind : idemFind cache key = some e)
    (hold : 3600000 < now - e.timestamp) :
    (checkIdempotency now key cache).1 = none ∧
    idemFind (reapIdempotency now cache) key = none := by
  constructor
  · simp only [checkIdempotency, hfind]
    rw [if_neg (by omega)]
  · exact idemFind_reap_expired now key cache e hnd hfind (by omega)

theorem C5_expired_record_absent_witness :
    (checkIdempotency 3700000 (.str "k") [(.str "k", ⟨.str "r", 0⟩)]).1 = none ∧
    idemFind (reapIdempotency 3700000 [(.str "k", ⟨.str "r", 0⟩)]) (.str "k") = none :=
  C5_expired_record_absent 3700000 (.str "k") [(.str "k", ⟨.str "r", 0⟩)] ⟨.str "r", 0⟩
    (by constructor <;> trivial) (by decide) (by decide)

/-! ## C9 -/

/-- An environment with the two startup-checked variables set and the
exact-payment variables absent. -/
def envPartialW : Env :=
  { serpApiKey := some "k", productSigningSecret := some "s",
    exactAsset := none, exactChain := none, exactRecipient := none, facilitatorUrl := none }

/-- C9 counterexample: with the signing secret present but the payment
recipient absent, startup succeeds — the missing recipient is not a fatal
startup error; it surfaces only when `getExactPaymentConfig` is called
(which `server.js` never does). -/
theorem C9_counterexample_recipient_not_checked_at_startup :
    serverStartup envPartialW = .ok () ∧
    getExactPaymentConfig envPartialW =
      .error "EXACT_RECIPIENT environment variable is required for exact payment scheme" :=
  ⟨rfl, rfl⟩

/-- C9 (amended): startup validation checks exactly `SERP_API_KEY` and
`PRODUCT_SIGNING_SECRET`; the recipient/facilitator (and asset/chain)
variables are never consulted at startup, and their absence only makes
`getExactPaymentConfig` — which `server.js` never invokes — throw
per call. -/
theorem C9_amended_startup_checks (env : Env) :
    (serverStartup env = .ok () ↔
      envFalsy env.serpApiKey = false ∧ envFalsy env.productSigningSecret = false) ∧
    (∀ r f a c, serverStartup { env with exactRecipient := r, facilitatorUrl := f, exactAsset := a, exactChain := c } = serverStartup env) ∧
    (envFalsy env.exactRecipient = true →
      ∀ cfgv, getExactPaymentConfig env ≠ .ok cfgv) := by
  refine ⟨?_, fun r f a c => rfl, ?_⟩
  · unfold serverStartup validateEnvironment
    cases h1 : envFalsy (envLookup env "SERP_API_KEY") <;>
      cases h2 : envFalsy (envLookup env "PRODUCT_SIGNING_SECRET") <;>
      simp only [List.filter, h1, h2, envLookup] at * <;>
      simp_all [envLookup]
  · intro hr cfgv
    unfold getExactPaymentConfig
    rw [if_pos hr]
    intro h
    cases h

/-! ## C3 -/

/-- C3: for every well-formed `ProductOffer` value, decoding the blob that
`signProduct` builds returns exactly the offer's JSON value:
`decodeProduct (encode x) = ok x`. -/
theorem C3_offer_roundtrip (hh : String → String → String) (secret : String)
    (x : ProductOffer) (hwf : x.wfB = true) :
    decodeProduct (signProduct hh secret x.toJson).1 = .ok x.toJson :=
  decodeProduct_signProduct hh secret hwf

theorem C3_offer_roundtrip_witness :
    offerW.wfB = true ∧
    decodeProduct (signProduct hmacW "secret" offerW.toJson).1 = .ok offerW.toJson :=
  ⟨by decide, C3_offer_roundtrip hmacW "secret" offerW (by decide)⟩

/-! ## C4 -/

def isStrP : JsProp → Bool
  | .val (.str _) => true
  | _ => false

def isNumP : JsProp → Bool
  | .val (.num _) => true
  | _ => false

/-- Spec-modelled (spec §4.1's words, for contrast with `decodeProduct`):
a structurally valid offer is an object with the required fields of §3 —
string identifier, title, URL and image, a price with numeric amount and
string currency code, and metadata with source name and fetch
timestamp. -/
def specValidOffer (j : Json) : Bool :=
  match j with
  | .obj _ =>
      isStrP (getPropD j "asin") && isStrP (getPropD j "title") &&
      isStrP (getPropD j "url") && isStrP (getPropD j "image") &&
      (match getPropD j "price" with
       | .val p => isNumP (getPropD p "amount") && isStrP (getPropD p "currency")
       | .undef => false) &&
      (match getPropD j "meta" with
       | .val m => isStrP (getPropD m "source") && isStrP (getPropD m "fetchedAt")
       | .undef => false)
  | _ => false

/-- C4 counterexample: the token `"N!Q"` has an invalid-alphabet character
and wrong padding, and its bytes decode to the JSON value `5`, which is
not a structurally valid offer — yet `decodeProduct` accepts it and
returns the value instead of failing. -/
theorem C4_counterexample_lenient_decode :
    decodeProduct "N!Q" = .ok (.num ⟨false, 5, []⟩) ∧
    specValidOffer (.num ⟨false, 5, []⟩) = false := by
  constructor
  · rfl
  · rfl

/-- C4 (amended): `decodeProduct` performs no offer-structure validation
and no alphabet or padding checks: whatever JSON value the leniently
decoded bytes parse to — offer-shaped or not — is returned; only inputs
whose bytes fail `JSON.parse` are rejected (with
`'Invalid product blob format'`). -/
theorem C4_amended_decode_no_validation (s : String) (j : Json)
    (h : jsonParse (String.mk (utf8DecodeLossy (base64urlDecode s))) = .ok j) :
    decodeProduct s = .ok j := by
  unfold decodeProduct
  rw [h]

theorem C4_amended_decode_no_validation_witness :
    decodeProduct "NQ" = .ok (.num ⟨false, 5, []⟩) :=
  C4_amended_decode_no_validation "NQ" (.num ⟨false, 5, []⟩) rfl

/-! ## C10 -/

/-- C10: a request missing `productBlob` or `signature` is answered with
the stage-`validation` `MISSING_REQUIRED_FIELDS` rejection before the
idempotency ledger is consulted: for every state — a live record for the
submitted key included — the state is returned untouched and no
downstream call is made. -/
theorem C10_missing_fields_before_idempotency (cfg : Cfg) (ctx : Ctx)
    (req : PurchaseReq) (st : St)
    (h : truthyP req.productBlob = false ∨ truthyP req.signature = false) :
    handlePurchase cfg ctx req st =
      ⟨400, createErrorResponse ctx.nowIso "validation" "MISSING_REQUIRED_FIELDS"
         "productBlob and signature are required"
         [("requestId", .val (.str ctx.requestId)),
          ("missing", .val (.arr [if !truthyP req.productBlob then .str "productBlob"
                                  else .str "signature"]))],
       st, []⟩ := by
  unfold handlePurchase
  rcases h with h | h <;> rw [if_pos (by simp [h])]

/-- A state whose ledger holds a record stored at time 0 (live for any
request clock below 3600000). -/
def stLiveW : St := ⟨[(.str "k", ⟨.str "cached", 0⟩)], []⟩

def cfgW : Cfg := ⟨"secret", hmacW, fallbackCatalog, fun _ => .ok .null⟩

def ctxW : Ctx := ⟨1000, "1970-01-01T00:00:01.000Z", "req_1", "pay_1"⟩

/-- A request with `productBlob` absent but with the idempotency key of
the live record. -/
def reqMissingW : PurchaseReq := ⟨.undef, .val (.str "aa"), .undef, .undef, .val (.str "k"), .undef⟩

theorem C10_missing_fields_before_idempotency_witness :
    (checkIdempotency ctxW.now (.str "k") stLiveW.idem).1 = some (.str "cached") ∧
    handlePurchase cfgW ctxW reqMissingW stLiveW =
      ⟨400, createErrorResponse ctxW.nowIso "validation" "MISSING_REQUIRED_FIELDS"
         "productBlob and signature are required"
         [("requestId", .val (.str ctxW.requestId)),
          ("missing", .val (.arr [.str "productBlob"]))],
       stLiveW, []⟩ :=
  ⟨rfl, C10_missing_fields_before_idempotency cfgW ctxW reqMissingW stLiveW (Or.inl rfl)⟩

/-! ## C1 -/

def ctx1W : Ctx := ⟨1000, "1970-01-01T00:00:01.000Z", "req_1", "pay_1"⟩

def ctx2W : Ctx := ⟨2000, "1970-01-01T00:00:02.000Z", "req_2", "pay_2"⟩

/-- A request whose signature fails verification (the stand-in digest is
64 `'a'`s) and which carries an idempotency key. -/
def reqBadSigW : PurchaseReq :=
  ⟨.val (.str "AA"), .val (.str (String.mk (List.replicate 64 'f'))), .undef, .undef,
   .val (.str "k"), .undef⟩

/-- C1 counterexample: a failed submission (invalid signature) stores
nothing in the ledger, so resubmitting the same
(productBlob, signature, idempotencyKey) within the window is recomputed
under the fresh request identifier and clock — the two responses are not
byte-identical, contradicting "for failures alike". -/
theorem C1_counterexample_failed_result_not_replayed :
    (handlePurchase cfgW ctx1W reqBadSigW ⟨[], []⟩).st.idem = [] ∧
    (handlePurchase cfgW ctx2W reqBadSigW (handlePurchase cfgW ctx1W reqBadSigW ⟨[], []⟩).st).body ≠
      (handlePurchase cfgW ctx1W reqBadSigW ⟨[], []⟩).body := by
  refine ⟨rfl, ?_⟩
  decide

/-- C1 (amended): only results that were stored replay: when the ledger
holds a live record for the submitted key and both required fields are
present, the handler answers 200 with the stored result byte-for-byte,
makes no downstream call, and leaves the ledger as the lookup pruned
it. -/
theorem C1_amended_stored_replay (cfg : Cfg) (ctx : Ctx) (req : PurchaseReq)
    (st : St) (cached : Json)
    (hb : truthyP req.productBlob = true) (hs : truthyP req.signature = true)
    (hk : truthyP req.idempotencyKey = true)
    (hc : (checkIdempotency ctx.now (propVal req.idempotencyKey) st.idem).1 = some cached) :
    handlePurchase cfg ctx req st =
      ⟨200, cached,
       { st with idem := (checkIdempotency ctx.now (propVal req.idempotencyKey) st.idem).2 },
       []⟩ := by
  unfold handlePurchase
  rw [if_neg (by simp [hb, hs])]
  simp only [hk, if_true, hc]

/-- A well-formed request carrying the live record's key. -/
def reqKeyedW : PurchaseReq :=
  ⟨.val (.str "AA"), .val (.str "aa"), .undef, .undef, .val (.str "k"), .undef⟩

theorem C1_amended_stored_replay_witness :
    handlePurchase cfgW ctxW reqKeyedW stLiveW = ⟨200, .str "cached", stLiveW, []⟩ :=
  C1_amended_stored_replay cfgW ctxW reqKeyedW stLiveW (.str "cached") rfl rfl rfl rfl

/-! ## C6 -/

theorem tryPurchase_price_exceeded (cfg : Cfg) (ctx : Ctx) (req : PurchaseReq) (st : St)
    (blob sig : String) (product : Json) (asinP amountP : JsProp)
    (catalogProduct : CatalogEntry)
    (hb : req.productBlob = .val (.str blob)) (hsg : req.signature = .val (.str sig))
    (hv : verifyProductSignature cfg.hmacHex cfg.secret blob sig = .ok true)
    (hd : decodeProduct blob = .ok product)
    (ha : getProp product "asin" = .ok asinP)
    (hval : (validateAsin cfg.catalog asinP).valid = true)
    (hvp : (validateAsin cfg.catalog asinP).product = some catalogProduct)
    (hpe : truthyP req.priceExpectation = true)
    (ham : amountOf product = .ok amountP)
    (hgt : jsGT amountP (getPropD (propVal req.priceExpectation) "amount") = true) :
    tryPurchase cfg ctx req st =
      ⟨.resp 400 (createErrorResponse ctx.nowIso "sku.validate" "PRICE_EXCEEDED"
          ("Current price $" ++ displayP amountP ++ " exceeds expected price $"
            ++ displayP (getPropD (propVal req.priceExpectation) "amount"))
          [("requestId", .val (.str ctx.requestId)),
           ("currentPrice", amountP),
           ("expectedPrice", getPropD (propVal req.priceExpectation) "amount")]),
       st, []⟩ := by
  unfold tryPurchase
  rw [hb, hsg]
  simp only [hv]
  unfold tryMain
  simp only [hd, ha, hval, hvp, hpe, ham, hgt]
  simp [hval, hvp, hpe, hgt]

/-- C6: a request carrying a price expectation whose decoded offer's
amount exceeds the expected amount is rejected with HTTP 400 at stage
`sku.validate` with code `PRICE_EXCEEDED`, and the order-creation
collaborator is never invoked (the run makes no downstream call). -/
theorem C6_price_exceeded_rejects_before_fulfillment
    (cfg : Cfg) (ctx : Ctx) (req : PurchaseReq) (st : St)
    (blob sig : String) (product : Json) (asinP amountP : JsProp)
    (catalogProduct : CatalogEntry)
    (hb : req.productBlob = .val (.str blob)) (hbt : truthyP req.productBlob = true)
    (hsg : req.signature = .val (.str sig)) (hsgt : truthyP req.signature = true)
    (hkc : truthyP req.idempotencyKey = true →
      (checkIdempotency ctx.now (propVal req.idempotencyKey) st.idem).1 = none)
    (hv : verifyProductSignature cfg.hmacHex cfg.secret blob sig = .ok true)
    (hd : decodeProduct blob = .ok product)
    (ha : getProp product "asin" = .ok asinP)
    (hval : (validateAsin cfg.catalog asinP).valid = true)
    (hvp : (validateAsin cfg.catalog asinP).product = some catalogProduct)
    (hpe : truthyP req.priceExpectation = true)
    (ham : amountOf product = .ok amountP)
    (hgt : jsGT amountP (getPropD (propVal req.priceExpectation) "amount") = true) :
    (handlePurchase cfg ctx req st).status = 400 ∧
    (∃ msg details, (handlePurchase cfg ctx req st).body =
        createErrorResponse ctx.nowIso "sku.validate" "PRICE_EXCEEDED" msg details) ∧
    (handlePurchase cfg ctx req st).calls = [] := by
  have hrun : ∃ st1, handlePurchase cfg ctx req st =
      ⟨400, createErrorResponse ctx.nowIso "sku.validate" "PRICE_EXCEEDED"
          ("Current price $" ++ displayP amountP ++ " exceeds expected price $"
            ++ displayP (getPropD (propVal req.priceExpectation) "amount"))
          [("requestId", .val (.str ctx.requestId)),
           ("currentPrice", amountP),
           ("expectedPrice", getPropD (propVal req.priceExpectation) "amount")],
       st1, []⟩ := by
    unfold handlePurchase
    rw [if_neg (by simp [hbt, hsgt])]
    by_cases hik : truthyP req.idempotencyKey = true
    · refine ⟨{ st with idem := (checkIdempotency ctx.now (propVal req.idempotencyKey) st.idem).2 }, ?_⟩
      simp only [hik, if_true, hkc hik]
      rw [tryPurchase_price_exceeded cfg ctx req _ blob sig product asinP amountP
        catalogProduct hb hsg hv hd ha hval hvp hpe ham hgt]
    · refine ⟨st, ?_⟩
      simp only [Bool.not_eq_true] at hik
      simp only [hik, Bool.false_eq_true, if_false]
      rw [tryPurchase_price_exceeded cfg ctx req _ blob sig product asinP amountP
        catalogProduct hb hsg hv hd ha hval hvp hpe ham hgt]
  obtain ⟨st1, hrun⟩ := hrun
  rw [hrun]
  exact ⟨rfl, ⟨_, _, rfl⟩, rfl⟩

def blobW : String := (signProduct hmacW "secret" offerW.toJson).1

def sigW : String := String.mk (List.replicate 64 'a')

/-- A request for the concrete offer with a price expectation of 100
(below the offer's 169.99). -/
def reqPriceW : PurchaseReq :=
  ⟨.val (.str blobW), .val (.str sigW), .undef, .undef, .undef,
   .val (.obj [("amount", .num ⟨false, 100, []⟩)])⟩

theorem C6_price_exceeded_rejects_before_fulfillment_witness :
    (handlePurchase cfgW ctxW reqPriceW ⟨[], []⟩).status = 400 ∧
    (∃ msg details, (handlePurchase cfgW ctxW reqPriceW ⟨[], []⟩).body =
        createErrorResponse ctxW.nowIso "sku.validate" "PRICE_EXCEEDED" msg details) ∧
    (handlePurchase cfgW ctxW reqPriceW ⟨[], []⟩).calls = [] :=
  C6_price_exceeded_rejects_before_fulfillment cfgW ctxW reqPriceW ⟨[], []⟩
    blobW sigW offerW.toJson (.val (.str "B08C7KG5LP")) (.val (.num ⟨false, 169, [9, 9]⟩))
    ⟨"B08C7KG5LP", "Apple AirPods (3rd Generation)", "B08C7KG5LP", ⟨false, 169, [9, 9]⟩⟩
    rfl (by decide) rfl rfl (fun h => Bool.noConfusion h)
    rfl (decodeProduct_signProduct hmacW "secret" (by decide)) rfl rfl rfl rfl rfl
    (by
      show jsGT (.val (.num ⟨false, 169, [9, 9]⟩)) (.val (.num ⟨false, 100, []⟩)) = true
      simp only [jsGT, toNumOpt]
      rw [decide_eq_true_eq]
      norm_num [JNum.toRat, JNum.fracVal])

/-! ## C7 lemmas -/

theorem validateAsin_valid_asin (catalog : Catalog) (asinP : JsProp)
    (hdef : catalog.defaultASIN ≠ "")
    (hval : (validateAsin catalog asinP).valid = true) :
    ∃ s, s ≠ "" ∧ (validateAsin catalog asinP).asin = .val (.str s) := by
  unfold validateAsin at hval ⊢
  by_cases ht : truthyP asinP = true
  · simp only [ht, Bool.not_true, Bool.false_eq_true, if_false] at hval ⊢
    cases hf : catalog.products.find? (fun p => asinP == .val (.str p.asin)) with
    | some product =>
        simp only [hf] at hval ⊢
        have hpred := List.find?_some hf
        have heq : asinP = .val (.str product.asin) := by simpa using hpred
        refine ⟨product.asin, ?_, by rw [heq]⟩
        rw [heq] at ht
        simpa [truthyP, jsTruthy] using ht
    | none => simp only [hf] at hval; cases hval
  · simp only [Bool.not_eq_true] at ht
    simp only [ht, Bool.not_false, if_true]
    exact ⟨catalog.defaultASIN, hdef, rfl⟩

theorem buildOrderRequest_locator (r p : Json) (s : String) (hs : s ≠ "") (j : Json)
    (h : buildOrderRequest r p (.val (.str s)) = .ok j) :
    getPropD j "lineItems" =
      .val (.arr [.obj [("productLocator", .str ("amazon:" ++ s))]]) := by
  unfold buildOrderRequest at h
  simp only [bind, Except.bind] at h
  have hloc : toAmazonLocator
      (if truthyP (getPropD p "offerId") = true then
        [("asin", JsProp.val (.str s)), ("offerId", getPropD p "offerId")]
      else [("asin", JsProp.val (.str s))]) = .ok ("amazon:" ++ s) := by
    have hst : truthyP (JsProp.val (.str s)) = true := by
      simp [truthyP, jsTruthy, hs]
    by_cases ho : truthyP (getPropD p "offerId") = true <;>
      simp [ho, toAmazonLocator, propsLookup, hst, displayP, displayJson]
  rw [hloc] at h
  repeat' split at h
  any_goals exact Except.noConfusion h
  simp only [pure, Except.pure, Except.ok.injEq] at h
  subst h
  rename_i hv9
  injection hv9 with hv9e
  subst hv9e
  rfl

theorem submitOrder_calls (cfg : Cfg) (ctx : Ctx) (req : PurchaseReq) (st : St)
    (product : Json) (asinP : JsProp) (av : AsinValidation) (cp : CatalogEntry) :
    ∀ call ∈ (submitOrder cfg ctx req st product asinP av cp).calls,
      buildOrderRequest (if truthyP req.shipping then propVal req.shipping else demoRecipient)
        product av.asin = .ok call := by
  intro call hc
  unfold submitOrder at hc
  cases ham : amountOf product <;> rw [ham] at hc
  case error => simp at hc
  case ok amountP =>
  cases hbr : buildOrderRequest
      (if truthyP req.shipping = true then propVal req.shipping else demoRecipient)
      product av.asin <;> simp only [hbr] at hc
  case error => simp at hc
  case ok orderRequest =>
  cases hcm : cfg.crossmint orderRequest <;> simp only [hcm] at hc
  case error =>
    simp only [List.mem_singleton] at hc
    subst hc
    rfl
  case ok raw =>
  cases hvr : validateCrossmintOrderResponse raw <;> simp only [hvr] at hc
  case error =>
    simp only [List.mem_singleton] at hc
    subst hc
    rfl
  case ok pr =>
    obtain ⟨orderIdJ, rawJ⟩ := pr
    simp only [List.mem_singleton] at hc
    subst hc
    rfl

theorem tryMain_calls (cfg : Cfg) (ctx : Ctx) (req : PurchaseReq) (st : St)
    (blob : String) (hdef : cfg.catalog.defaultASIN ≠ "") :
    ∀ call ∈ (tryMain cfg ctx req st blob).calls,
      ∃ product asinP s,
        decodeProduct blob = .ok product ∧
        getProp product "asin" = .ok asinP ∧
        (validateAsin cfg.catalog asinP).asin = .val (.str s) ∧
        getPropD call "lineItems" =
          .val (.arr [.obj [("productLocator", .str ("amazon:" ++ s))]]) := by
  intro call hc
  unfold tryMain at hc
  cases hd : decodeProduct blob <;> rw [hd] at hc
  case error => simp at hc
  case ok product =>
  rw [← hd]
  cases ha : getProp product "asin" <;> simp only [ha] at hc
  case error => simp at hc
  case ok asinP =>
  by_cases hvf : (validateAsin cfg.catalog asinP).valid = false
  · rw [if_pos hvf] at hc
    simp at hc
  · rw [if_neg hvf] at hc
    have hval : (validateAsin cfg.catalog asinP).valid = true := by
      revert hvf
      cases (validateAsin cfg.catalog asinP).valid <;> simp
    obtain ⟨s, hs, hasin⟩ := validateAsin_valid_asin cfg.catalog asinP hdef hval
    cases hp : (validateAsin cfg.catalog asinP).product with
    | none => simp only [hp] at hc; simp at hc
    | some cp =>
    simp only [hp] at hc
    have hmk : ∀ h2 : call ∈ (submitOrder cfg ctx req st product asinP
        (validateAsin cfg.catalog asinP) cp).calls,
        ∃ product1 asinP1 s1,
          decodeProduct blob = .ok product1 ∧
          getProp product1 "asin" = .ok asinP1 ∧
          (validateAsin cfg.catalog asinP1).asin = .val (.str s1) ∧
          getPropD call "lineItems" =
            .val (.arr [.obj [("productLocator", .str ("amazon:" ++ s1))]]) := by
      intro h2
      have hbr := submitOrder_calls cfg ctx req st product asinP
        (validateAsin cfg.catalog asinP) cp call h2
      rw [hasin] at hbr
      exact ⟨product, asinP, s, hd, ha, hasin,
        buildOrderRequest_locator _ product s hs call hbr⟩
    by_cases hpe : truthyP req.priceExpectation = true
    · rw [if_pos hpe] at hc
      cases ham : amountOf product with
      | error e => simp only [ham] at hc; simp at hc
      | ok amountP =>
      simp only [ham] at hc
      by_cases hgt : jsGT amountP (getPropD (propVal req.priceExpectation) "amount") = true
      · rw [if_pos hgt] at hc
        simp at hc
      · rw [if_neg hgt] at hc
        exact hmk hc
    · rw [if_neg hpe] at hc
      exact hmk hc

theorem tryPurchase_calls (cfg : Cfg) (ctx : Ctx) (req : PurchaseReq) (st : St)
    (hdef : cfg.catalog.defaultASIN ≠ "") :
    ∀ call ∈ (tryPurchase cfg ctx req st).calls,
      ∃ blob product asinP s,
        req.productBlob = .val (.str blob) ∧
        decodeProduct blob = .ok product ∧
        getProp product "asin" = .ok asinP ∧
        (validateAsin cfg.catalog asinP).asin = .val (.str s) ∧
        getPropD call "lineItems" =
          .val (.arr [.obj [("productLocator", .str ("amazon:" ++ s))]]) := by
  intro call hc
  unfold tryPurchase at hc
  cases hb : req.productBlob <;> rw [hb] at hc
  case undef => simp at hc
  case val jb =>
  cases jb <;> try simp at hc
  case str blob =>
  cases hsg : req.signature <;> rw [hsg] at hc
  case undef => simp at hc
  case val js =>
  cases js <;> try simp at hc
  case str sig =>
  cases hv : verifyProductSignature cfg.hmacHex cfg.secret blob sig <;> simp only [hv] at hc
  case error => simp at hc
  case ok b =>
  cases b
  case false => simp at hc
  case true =>
    obtain ⟨product, asinP, s, h1, h2, h3, h4⟩ := tryMain_calls cfg ctx req st blob hdef call hc
    exact ⟨blob, product, asinP, s, rfl, h1, h2, h3, h4⟩

/-- C7: every order request the handler sends downstream carries a
product locator built from the catalog-validated identifier — the string
of `(validateAsin …).asin` for the identifier decoded out of the token —
never any other value. -/
theorem C7_locator_from_validated_asin (cfg : Cfg) (ctx : Ctx) (req : PurchaseReq)
    (st : St) (hdef : cfg.catalog.defaultASIN ≠ "")
    (call : Json) (hc : call ∈ (handlePurchase cfg ctx req st).calls) :
    ∃ blob product asinP s,
      req.productBlob = .val (.str blob) ∧
      decodeProduct blob = .ok product ∧
      getProp product "asin" = .ok asinP ∧
      (validateAsin cfg.catalog asinP).asin = .val (.str s) ∧
      getPropD call "lineItems" =
        .val (.arr [.obj [("productLocator", .str ("amazon:" ++ s))]]) := by
  unfold handlePurchase at hc
  by_cases hmf : (!truthyP req.productBlob || !truthyP req.signature) = true
  · rw [if_pos hmf] at hc
    simp at hc
  · rw [if_neg hmf] at hc
    by_cases hik : truthyP req.idempotencyKey = true
    · simp only [hik, if_true] at hc
      cases hcc : (checkIdempotency ctx.now (propVal req.idempotencyKey) st.idem).1 with
      | some cached => simp only [hcc] at hc; simp at hc
      | none =>
        simp only [hcc] at hc
        cases htp : tryPurchase cfg ctx req
            { st with idem := (checkIdempotency ctx.now (propVal req.idempotencyKey) st.idem).2 } with
        | mk step st2 calls =>
            cases step <;> simp only [htp] at hc <;>
              exact tryPurchase_calls cfg ctx req _ hdef call (by rw [htp]; exact hc)
    · simp only [Bool.not_eq_true] at hik
      simp only [hik, Bool.false_eq_true, if_false] at hc
      cases htp : tryPurchase cfg ctx req st with
      | mk step st2 calls =>
          cases step <;> simp only [htp] at hc <;>
            exact tryPurchase_calls cfg ctx req _ hdef call (by rw [htp]; exact hc)

theorem headD_mem_of_ne_nil (l : List Json) (h : l ≠ []) : l.headD .null ∈ l := by
  cases l with
  | nil => exact absurd rfl h
  | cons x t => simp

/-- A request that reaches order submission (no price ceiling, no key). -/
def reqOrderW : PurchaseReq :=
  ⟨.val (.str blobW), .val (.str sigW), .undef, .undef, .undef, .undef⟩

theorem C7_locator_from_validated_asin_witness :
    ∃ blob product asinP s,
      reqOrderW.productBlob = .val (.str blob) ∧
      decodeProduct blob = .ok product ∧
      getProp product "asin" = .ok asinP ∧
      (validateAsin cfgW.catalog asinP).asin = .val (.str s) ∧
      getPropD ((handlePurchase cfgW ctxW reqOrderW ⟨[], []⟩).calls.headD .null) "lineItems" =
        .val (.arr [.obj [("productLocator", .str ("amazon:" ++ s))]]) :=
  C7_locator_from_validated_asin cfgW ctxW reqOrderW ⟨[], []⟩ (by decide) _
    (headD_mem_of_ne_nil _ (by set_option maxRecDepth 1000000 in decide))
